import Mathlib

/-!
Verification development for the npllm schema/materialization core.

This file gives a shallow embedding, in Lean 4, of the parts of the npllm
repository that the verified properties concern:

* `src/npllm/core/type.py` — the schema model (`Type` and its subclasses) and
  the value materializer (`convert` / `convert_strict` methods);
* `src/npllm/utils/json_util.py` — `clean_json_str` / `parse_json_str`;
* `src/npllm/core/llm_executor/compilers/default/default_compiler.py` — the
  compilation cache (`compile`, `_get_cache`, `_save_cache`);
* the dataclass-resolution fragment of `Type.from_annotation` /
  `DataclassType.from_annotation` in `type.py`.

Modelling conventions:

* Parsed JSON / Python runtime values are the inductive `PyVal`.  Python float
  objects are modelled as rationals (`Rat`); none of the proved properties
  depends on binary floating-point rounding, only on kind tags and on exact
  values of small literals.  The textual rendering of floats
  (`ratRepr`) is consequently an approximation of CPython float formatting.
* Python exceptions are modelled with `Except`:  `ConvErr.conversion` is
  `ValueConversionError`, `ConvErr.pyerr` stands for any other Python
  exception (`ValueError`, `TypeError`, `KeyError`, ...), which the npllm code
  never catches.  `ConvErr.fuel` is an artifact of the embedding: the Python
  recursion carries no fuel, so theorems either hold for every fuel or are
  stated for sufficiently large fuel.
* The schema graph of `type.py` is an object graph in which a
  `DataclassType` node carries its field types directly and may be cyclic
  (self-referencing dataclasses).  The embedding breaks the cycles by storing
  dataclass field lists in an environment `Env` keyed by class name, which is
  exactly the information carried by the node graph.
-/

/-- First-match association-list lookup: the embedding of Python `dict`
lookup (`d[k]`, `k in d`, `d.get(k)`) for string-keyed dicts. -/
def assocFind {α : Type} : List (String × α) → String → Option α
  | [], _ => Option.none
  | (k2, v) :: rest, k => if k2 = k then some v else assocFind rest k

/-- Parsed JSON values / Python runtime values, as produced by `json.loads`
and consumed and produced by the `convert` methods of `type.py`.  `dcInst`
is a dataclass instance (`self._dataclass_cls(**field_values)`); `tuple` is a
Python tuple.  Python floats are modelled as rationals. -/
inductive PyVal where
  | none
  | bool (b : Bool)
  | int (n : Int)
  | float (q : Rat)
  | str (s : String)
  | list (xs : List PyVal)
  | tuple (xs : List PyVal)
  | dict (kvs : List (String × PyVal))
  | dcInst (cls : String) (fields : List (String × PyVal))

/-- Python `type(value).__name__`, used in the strict-mode error messages of
`BasicType.convert_strict` (type.py lines 160, 165, 170). -/
def pyTypeName : PyVal → String
  | .none => "NoneType"
  | .bool _ => "bool"
  | .int _ => "int"
  | .float _ => "float"
  | .str _ => "str"
  | .list _ => "list"
  | .tuple _ => "tuple"
  | .dict _ => "dict"
  | .dcInst cls _ => cls

/-- Truncation of a rational toward zero: the embedding of CPython
`int(float)`. -/
def ratTrunc (q : Rat) : Int := q.num.tdiv (q.den : Int)

/-- Rendering of a rational, standing in for CPython float formatting in
diagnostic strings (approximation; no proved property depends on it). -/
def ratRepr (q : Rat) : String := toString q

mutual

/-- Python `repr(value)` for the values of `PyVal` (approximated for floats;
exact for `None`, bools, ints, strings, lists, tuples, dicts and dataclass
instances built from those). -/
def pyRepr : PyVal → String
  | .none => "None"
  | .bool b => if b then "True" else "False"
  | .int n => toString n
  | .float q => ratRepr q
  | .str s => "'" ++ s ++ "'"
  | .list xs => "[" ++ pyReprItems xs ++ "]"
  | .tuple xs => "(" ++ pyReprItems xs ++ ")"
  | .dict kvs => "\x7b" ++ pyReprDictItems kvs ++ "\x7d"
  | .dcInst cls fields => cls ++ "(" ++ pyReprFieldItems fields ++ ")"

/-- Comma-joined `repr` of list items (helper for `pyRepr`). -/
def pyReprItems : List PyVal → String
  | [] => ""
  | [x] => pyRepr x
  | x :: rest => pyRepr x ++ ", " ++ pyReprItems rest

/-- Comma-joined `repr` of dict items (helper for `pyRepr`). -/
def pyReprDictItems : List (String × PyVal) → String
  | [] => ""
  | [(k, v)] => "'" ++ k ++ "': " ++ pyRepr v
  | (k, v) :: rest => "'" ++ k ++ "': " ++ pyRepr v ++ ", " ++ pyReprDictItems rest

/-- Comma-joined `name=repr` of dataclass fields (helper for `pyRepr`). -/
def pyReprFieldItems : List (String × PyVal) → String
  | [] => ""
  | [(k, v)] => k ++ "=" ++ pyRepr v
  | (k, v) :: rest => k ++ "=" ++ pyRepr v ++ ", " ++ pyReprFieldItems rest

end

/-- Python `str(value)`: identity on strings, `repr` otherwise (CPython
`str` falls back to `__repr__` for these types, and `str` of a container
uses `repr` of its elements). -/
def pyStr : PyVal → String
  | .str s => s
  | v => pyRepr v

/-- Python truthiness (`bool(value)`) on the values of `PyVal`. -/
def pyTruthy : PyVal → Bool
  | .none => false
  | .bool b => b
  | .int n => n != 0
  | .float q => q != 0
  | .str s => s != ""
  | .list xs => !xs.isEmpty
  | .tuple xs => !xs.isEmpty
  | .dict kvs => !kvs.isEmpty
  | .dcInst _ _ => true

/-- Python `value is not None` (used by the union best-effort filter at
type.py line 670). -/
def pyIsNotNone : PyVal → Bool
  | .none => false
  | _ => true

/-- Errors escaping the materializer.  `conversion` is
`ValueConversionError` (type.py line 16), `pyerr` is any other Python
exception, and `fuel` is the embedding artifact marking exhausted recursion
fuel (the Python code has no counterpart; see the header comment). -/
inductive ConvErr where
  | conversion (msg : String)
  | pyerr (msg : String)
  | fuel

/-- Value of a decimal-digit string (helper for the numeric-string parsers). -/
def digitsVal (cs : List Char) : Nat :=
  cs.foldl (fun acc c => acc * 10 + (c.toNat - 48)) 0

/-- CPython `int(string)` on plain decimal literals (optional sign, digits);
`Option.none` models `ValueError`.  Whitespace stripping and underscore
grouping accepted by CPython are not modelled; no proved property uses them. -/
def pyIntOfStr (s : String) : Option Int :=
  let signed : Int × List Char :=
    match s.data with
    | '-' :: rest => (-1, rest)
    | '+' :: rest => (1, rest)
    | cs => (1, cs)
  if signed.2.isEmpty || !signed.2.all Char.isDigit then Option.none
  else some (signed.1 * (digitsVal signed.2 : Int))

/-- CPython `float(string)` on plain decimal literals
(optional sign, integer part, optional fractional part); `Option.none`
models `ValueError`.  Exponents, `inf`/`nan` and whitespace stripping are not
modelled; no proved property uses them. -/
def pyFloatOfStr (s : String) : Option Rat :=
  let cs := s.data
  let signed : Rat × List Char :=
    match cs with
    | '-' :: rest => (-1, rest)
    | '+' :: rest => (1, rest)
    | _ => (1, cs)
  let intPart := signed.2.takeWhile Char.isDigit
  let rest := signed.2.dropWhile Char.isDigit
  match rest with
  | [] =>
    if intPart.isEmpty then Option.none
    else some (signed.1 * (digitsVal intPart : Rat))
  | '.' :: frac =>
    if frac.all Char.isDigit && !(intPart.isEmpty && frac.isEmpty) then
      some (signed.1 *
        ((digitsVal intPart : Rat) + (digitsVal frac : Rat) / ((10 : Rat) ^ frac.length)))
    else Option.none
  | _ => Option.none

/-- CPython `int(value)` for non-`None` arguments (used by the lenient branch
of `BasicType.convert`, type.py line 146). -/
def pyIntOf : PyVal → Except ConvErr Int
  | .int n => .ok n
  | .float q => .ok (ratTrunc q)
  | .bool b => .ok (if b then 1 else 0)
  | .str s =>
    match pyIntOfStr s with
    | some n => .ok n
    | Option.none => .error (.pyerr ("invalid literal for int() with base 10: " ++ s))
  | v => .error (.pyerr ("int() argument must be a number, not " ++ pyTypeName v))

/-- CPython `float(value)` for non-`None` arguments (used by the lenient
branch of `BasicType.convert`, type.py line 148). -/
def pyFloatOf : PyVal → Except ConvErr Rat
  | .int n => .ok (n : Rat)
  | .float q => .ok q
  | .bool b => .ok (if b then 1 else 0)
  | .str s =>
    match pyFloatOfStr s with
    | some q => .ok q
    | Option.none => .error (.pyerr ("could not convert string to float: " ++ s))
  | v => .error (.pyerr ("float() argument must be a number, not " ++ pyTypeName v))

/-- Scalars allowed in a `Literal[...]` schema (`LiteralType._values`;
`from_annotation` admits only `str`/`int`/`float`/`bool` constants,
type.py line 749). -/
inductive Scalar where
  | s (v : String)
  | i (n : Int)
  | f (q : Rat)
  | b (v : Bool)

/-- Python `==` between a runtime value and a `Literal` scalar, including
CPython cross-kind numeric equality (`3 == 3.0`, `True == 1`). -/
def pyEqScalar : PyVal → Scalar → Bool
  | .str s1, .s s2 => s1 == s2
  | .int n, .i m => n == m
  | .int n, .f q => (n : Rat) == q
  | .int n, .b b => n == (if b then 1 else 0)
  | .float q, .i m => q == (m : Rat)
  | .float q, .f p => q == p
  | .float q, .b b => q == (if b then (1 : Rat) else 0)
  | .bool v, .i m => (if v then (1 : Int) else 0) == m
  | .bool v, .f q => (if v then (1 : Rat) else 0) == q
  | .bool v, .b b => v == b
  | _, _ => false

/-- Python `repr` of a `Literal` scalar (used by `LiteralType.__repr__` and
in the literal-mismatch error message). -/
def scalarRepr : Scalar → String
  | .s v => "'" ++ v ++ "'"
  | .i n => toString n
  | .f q => ratRepr q
  | .b v => if v then "True" else "False"

/-- Comma-joined `repr` of literal scalars. -/
def scalarReprItems : List Scalar → String
  | [] => ""
  | [x] => scalarRepr x
  | x :: rest => scalarRepr x ++ ", " ++ scalarReprItems rest

/-- The schema model of type.py as a closed variant type.  A `record cls`
node is a `DataclassType`; its ordered field list lives in the environment
`Env` (the embedding of the — possibly cyclic — object graph, in which each
`DataclassType` node carries `_field_types` directly).  `basic` is
`BasicType`, `dict` is `DictType` (whose key type is always `str`),
`union` is `UnionType`, `lit` is `LiteralType`, `opt` is `OptionalType`,
`alias` is `AliasType` (with its resolved target inlined) and `any` is
`AnyType`. -/
inductive Ty where
  | basic (k : String)
  | list (item : Ty)
  | tuple (items : List Ty)
  | dict (value : Ty)
  | record (cls : String)
  | union (branches : List Ty)
  | lit (values : List Scalar)
  | opt (item : Ty)
  | aliasT (name : String) (target : Ty)
  | any


/-- `BasicType.convert_strict` (type.py lines 154-173).  The numeric branch
accepts `isinstance(value, int) or isinstance(value, float)`; CPython bools
are instances of `int`, so a bool wire value passes the numeric check and is
returned unchanged. -/
def convertBasicStrict (k : String) (value : PyVal) (field_path : String) :
    Except ConvErr PyVal :=
  match value with
  | .none => .ok .none
  | v =>
    if k = "str" then
      match v with
      | .str s => .ok (.str s)
      | _ => .error (.conversion
          (field_path ++ " expected to be str, but got " ++ pyTypeName v))
    else if k = "int" ∨ k = "float" then
      match v with
      | .int n => .ok (.int n)
      | .float q => .ok (.float q)
      | .bool b => .ok (.bool b)
      | _ => .error (.conversion
          (field_path ++ " expected to be int or float, but got " ++ pyTypeName v))
    else if k = "bool" then
      match v with
      | .bool b => .ok (.bool b)
      | _ => .error (.conversion
          (field_path ++ " expected to be bool, but got " ++ pyTypeName v))
    else .error (.pyerr ("Unknown basic type: " ++ k))

/-- `BasicType.convert`, lenient branch (type.py lines 136-152): `None`
passes through; a `str` schema applies `str(value)`; the empty string
converts to `None` for the remaining kinds; `int`/`float`/`bool` schemas
apply the CPython constructors (whose `ValueError`/`TypeError` failures are
`pyerr`s, uncaught by the materializer). -/
def convertBasicLenient (k : String) (value : PyVal) (_field_path : String) :
    Except ConvErr PyVal :=
  match value with
  | .none => .ok .none
  | v =>
    if k = "str" then .ok (.str (pyStr v))
    else
      match v with
      | .str "" => .ok .none
      | v =>
        if k = "int" then do
          let n ← pyIntOf v
          .ok (.int n)
        else if k = "float" then do
          let q ← pyFloatOf v
          .ok (.float q)
        else if k = "bool" then .ok (.bool (pyTruthy v))
        else .error (.pyerr ("Unknown basic type: " ++ k))

/-- Dataclass environment: class name to ordered `(field name, field type)`
list, the content of `DataclassType._field_types` per class. -/
abbrev Env : Type := List (String × List (String × Ty))

mutual

/-- `Type.__repr__` of type.py: the canonical textual form of a schema,
used as the union branch tag (`UnionType.convert` compares
`repr(t) == __type_name`). -/
def tyRepr : Ty → String
  | .basic k => k
  | .list item => "List[" ++ tyRepr item ++ "]"
  | .tuple items => "Tuple[" ++ tyReprItems items ++ "]"
  | .dict value => "Dict[str, " ++ tyRepr value ++ "]"
  | .record cls => cls
  | .union branches => "Union[" ++ tyReprItems branches ++ "]"
  | .lit values => "Literal[" ++ scalarReprItems values ++ "]"
  | .opt item => "Optional[" ++ tyRepr item ++ "]"
  | .aliasT name _ => name
  | .any => "Any"

/-- Comma-joined `repr` of schema lists (helper for `tyRepr`). -/
def tyReprItems : List Ty → String
  | [] => ""
  | [t] => tyRepr t
  | t :: rest => tyRepr t ++ ", " ++ tyReprItems rest

end

/-- Python `value.get(key)` on a string-keyed dict: the stored value, or
`None` when the key is absent (`UnionType.convert` lines 656-657). -/
def pyGet (kvs : List (String × PyVal)) (k : String) : PyVal :=
  (assocFind kvs k).getD .none

/-- `ListType.convert` item loop (type.py lines 229-233): items converted
in order with paths `field_path[i]`, by the conversion function `conv`
(the recursive `convert` at the current mode). -/
def convItems (conv : Ty → PyVal → String → Except ConvErr PyVal) (item : Ty) :
    List PyVal → String → Nat → Except ConvErr (List PyVal)
  | [], _, _ => .ok []
  | x :: rest, field_path, i => do
    let y ← conv item x (field_path ++ "[" ++ toString i ++ "]")
    let ys ← convItems conv item rest field_path (i + 1)
    .ok (y :: ys)

/-- `TupleType.convert` item loop (type.py lines 308-312). -/
def convTupItems (conv : Ty → PyVal → String → Except ConvErr PyVal) :
    List Ty → List PyVal → String → Nat → Except ConvErr (List PyVal)
  | [], _, _, _ => .ok []
  | it :: restTy, x :: restX, field_path, i => do
    let y ← conv it x (field_path ++ "[" ++ toString i ++ "]")
    let ys ← convTupItems conv restTy restX field_path (i + 1)
    .ok (y :: ys)
  | _ :: _, [], _, _ => .error (.pyerr "tuple arity mismatch")

/-- `DictType.convert` entry loop (type.py lines 388-394): values converted
in order with paths `field_path.k`.  Keys of the embedded dict are strings
by construction, so the `isinstance(k, str)` guard of line 390 cannot fire
and is not represented. -/
def convDictItems (conv : Ty → PyVal → String → Except ConvErr PyVal) (vt : Ty) :
    List (String × PyVal) → String → Except ConvErr (List (String × PyVal))
  | [], _ => .ok []
  | (k, v) :: rest, field_path => do
    let cv ← conv vt v (field_path ++ "." ++ k)
    let out ← convDictItems conv vt rest field_path
    .ok ((k, cv) :: out)

/-- `DataclassType.convert` lenient field loop (type.py lines 548-556): a
declared field present in the input is converted (with the lenient mode
baked into `conv`); a missing declared field is bound to `None`; undeclared
input keys are never consulted. -/
def convFieldsL (conv : Ty → PyVal → String → Except ConvErr PyVal) :
    List (String × Ty) → List (String × PyVal) → String →
    Except ConvErr (List (String × PyVal))
  | [], _, _ => .ok []
  | (fname, ftype) :: rest, kvs, field_path =>
    match assocFind kvs fname with
    | some fv => do
      let cv ← conv ftype fv (field_path ++ "." ++ fname)
      let out ← convFieldsL conv rest kvs field_path
      .ok ((fname, cv) :: out)
    | Option.none => do
      let out ← convFieldsL conv rest kvs field_path
      .ok ((fname, PyVal.none) :: out)

/-- `DataclassType.convert_strict` field loop (type.py lines 565-571): a
missing declared field raises `ValueConversionError`; undeclared input keys
are never consulted. -/
def convFieldsS (conv : Ty → PyVal → String → Except ConvErr PyVal) :
    List (String × Ty) → List (String × PyVal) → String →
    Except ConvErr (List (String × PyVal))
  | [], _, _ => .ok []
  | (fname, ftype) :: rest, kvs, field_path =>
    match assocFind kvs fname with
    | some fv => do
      let cv ← conv ftype fv (field_path ++ "." ++ fname)
      let out ← convFieldsS conv rest kvs field_path
      .ok ((fname, cv) :: out)
    | Option.none => .error (.conversion (field_path ++ " expected to have field "
        ++ fname ++ ", but it\u0027s missing"))

/-- `UnionType.convert` untagged best-effort loop (type.py lines 661-668):
each branch is attempted strictly (strictness baked into `conv`) against the
whole value with path `field_path.__value`; a `ValueConversionError` records
a `None` entry — indistinguishable in `try_results` from a branch that
converted to `None` — and any other exception propagates (the `except`
clause of line 666 catches only `ValueConversionError`). -/
def convTry (conv : Ty → PyVal → String → Except ConvErr PyVal) :
    List Ty → PyVal → String → Except ConvErr (List PyVal)
  | [], _, _ => .ok []
  | b :: rest, value, field_path =>
    match conv b value (field_path ++ ".__value") with
    | .ok v => do
      let out ← convTry conv rest value field_path
      .ok (v :: out)
    | .error (.conversion _) => do
      let out ← convTry conv rest value field_path
      .ok (PyVal.none :: out)
    | .error e => .error e

/-- The selection at type.py lines 670-674: `successful_conversions` are
the non-None entries of `try_results`; exactly one wins, otherwise the
ambiguity error is raised. -/
def pickUnique (field_path : String) (tries : List PyVal) : Except ConvErr PyVal :=
  match tries.filter pyIsNotNone with
  | [v] => .ok v
  | _ => .error (.conversion (field_path ++ " expected to have __type_name and __value"))

/-- The materializer of type.py: `t.convert(value, field_path, strict)`.

Each schema kind\u0027s case transcribes the corresponding `convert` /
`convert_strict` method pair of type.py:
`BasicType` lines 132-173 (see `convertBasicStrict` / `convertBasicLenient`),
`ListType` 222-233, `TupleType` 298-312, `DictType` 381-394,
`DataclassType` 532-573, `UnionType` 646-709, `AnyType` 734-735,
`LiteralType` 766-773, `AliasType` 873-874, `OptionalType` 926-930.

`fuel` only bounds recursion depth (the Python recursion is unbounded); one
unit is consumed per `convert` activation, and the iteration loops hand the
remaining fuel unchanged to every element, as the Python for-loops do. -/
def convert (fuel : Nat) (env : Env) (t : Ty) (value : PyVal)
    (field_path : String) (strict : Bool) : Except ConvErr PyVal :=
  match fuel with
  | 0 => .error .fuel
  | fuel + 1 =>
    match t with
    | .basic k =>
      -- BasicType.convert (lines 132-134 dispatch on `strict`).
      if strict then convertBasicStrict k value field_path
      else convertBasicLenient k value field_path
    | .list item =>
      -- ListType.convert (lines 222-233).
      match value with
      | .none => .ok .none
      | .list xs => do
        let ys ← convItems (fun ty v p => convert fuel env ty v p strict)
          item xs field_path 0
        .ok (.list ys)
      | _ => .error (.conversion (field_path ++ " expected to be a list"))
    | .tuple items =>
      -- TupleType.convert (lines 298-312); arity is checked before any
      -- item conversion.
      match value with
      | .none => .ok .none
      | .list xs =>
        if items.length ≠ xs.length then
          .error (.conversion (field_path ++ " expected to have "
            ++ toString items.length ++ " items, but got "
            ++ toString xs.length ++ " items"))
        else do
          let ys ← convTupItems (fun ty v p => convert fuel env ty v p strict)
            items xs field_path 0
          .ok (.tuple ys)
      | _ => .error (.conversion (field_path ++ " expected to be a list"))
    | .dict vt =>
      -- DictType.convert (lines 381-394).
      match value with
      | .none => .ok .none
      | .dict kvs => do
        let out ← convDictItems (fun ty v p => convert fuel env ty v p strict)
          vt kvs field_path
        .ok (.dict out)
      | _ => .error (.conversion (field_path ++ " expected to be a dict"))
    | .record cls =>
      -- DataclassType.convert / convert_strict (lines 532-573).  The strict
      -- dispatch of line 533 happens first; both paths then check
      -- `value is None`.  The field loops convert with the prevailing mode
      -- (line 551 passes the — here lenient — `strict` flag through, line
      -- 568 passes `strict=True`).
      match value with
      | .none => .ok .none
      | v =>
        match assocFind env cls with
        | Option.none => .error (.pyerr ("unknown dataclass " ++ cls))
        | some flds =>
          if strict then
            match v with
            | .dict kvs => do
              let fvs ← convFieldsS (fun ty v2 p => convert fuel env ty v2 p true)
                flds kvs field_path
              .ok (.dcInst cls fvs)
            | _ => .error (.conversion (field_path ++ " expected to be a dict"))
          else
            match v with
            | .dict kvs => do
              let fvs ← convFieldsL (fun ty v2 p => convert fuel env ty v2 p false)
                flds kvs field_path
              .ok (.dcInst cls fvs)
            | .int _ | .float _ | .str _ | .bool _ =>
              -- lines 540-544: a primitive against a single-field dataclass
              -- is wrapped into `{only_field_name: value}` and converted.
              match flds with
              | [(fname, _)] => do
                let fvs ← convFieldsL (fun ty v2 p => convert fuel env ty v2 p false)
                  flds [(fname, v)] field_path
                .ok (.dcInst cls fvs)
              | _ => .error (.conversion (field_path ++ " expected to be a dict"))
            | _ => .error (.conversion (field_path ++ " expected to be a dict"))
    | .union branches =>
      -- UnionType.convert / convert_strict (lines 646-709).
      match value with
      | .none => .ok .none
      | .dict kvs =>
        match pyGet kvs "__type_name", pyGet kvs "__value" with
        | .none, _ | _, .none =>
          if strict then
            .error (.conversion (field_path ++ " expected to have __type_name and __value"))
          else do
            -- lines 659-674: every branch attempted strictly; only
            -- ValueConversionError is caught (recorded as a `None` entry);
            -- exactly one non-None entry wins.
            let tries ← convTry (fun ty v p => convert fuel env ty v p true)
              branches (.dict kvs) field_path
            pickUnique field_path tries
        | tn, tv =>
          match branches.find? (fun t =>
              match tn with
              | .str s => tyRepr t == s
              | _ => false) with
          | some actual => convert fuel env actual tv (field_path ++ ".__value") strict
          | Option.none => .error (.conversion (field_path ++ " has invalid __type_name"))
      | _ => .error (.conversion
          (field_path ++ " expected to be a dict with __type_name and __value"))
    | .lit values =>
      -- LiteralType.convert (lines 766-773).
      match value with
      | .none => .ok .none
      | v =>
        if values.any (fun s => pyEqScalar v s) then .ok v
        else .error (.conversion (field_path ++ " expected to be one of ["
          ++ scalarReprItems values ++ "], but got " ++ pyStr v))
    | .opt item =>
      -- OptionalType.convert (lines 926-930).
      match value with
      | .none => .ok .none
      | v => convert fuel env item v field_path strict
    | .aliasT _ target =>
      -- AliasType.convert (lines 873-874): transparent delegation.
      convert fuel env target value field_path strict
    | .any =>
      -- AnyType.convert (lines 734-735): unvalidated passthrough.
      .ok value

/-! ## json_util.py — tolerant wire-text parsing

CPython string primitives used by `clean_json_str` / `parse_json_str` are
embedded as character-list functions so that they compute by kernel
reduction: `strSlice s a b` is the Python slice `s[a:-b]`, `strTrim` is
`str.strip()` restricted to the common whitespace characters, `strStarts` /
`strEnds` are `str.startswith` / `str.endswith`, and `pyIsDigitStr` is
`str.isdigit()` restricted to ASCII digits. -/

/-- Whitespace recognized by the embedded `str.strip()`. -/
def isSpaceChar (c : Char) : Bool :=
  c == ' ' || c == '\n' || c == '\t' || c == '\r'

/-- Python slice `s[a:-b]` (empty when the bounds cross, as in Python). -/
def strSlice (s : String) (a b : Nat) : String :=
  String.mk ((s.data.drop a).take (s.data.length - a - b))

/-- Python `s.strip()` (common whitespace). -/
def strTrim (s : String) : String :=
  String.mk (((s.data.dropWhile isSpaceChar).reverse.dropWhile isSpaceChar).reverse)

/-- Python `s.startswith(pre)`. -/
def strStarts (s pre : String) : Bool := pre.data.isPrefixOf s.data

/-- Python `s.endswith(suf)`. -/
def strEnds (s suf : String) : Bool := suf.data.isSuffixOf s.data

/-- Python `s.isdigit()` (ASCII digits). -/
def pyIsDigitStr (s : String) : Bool :=
  !s.data.isEmpty && s.data.all Char.isDigit

/-- `clean_json_str` (json_util.py lines 6-13): strips a ```` ```json ````,
```` ``` ```` or `` ` `` fence and the matching closer, then `strip()`s. -/
def clean_json_str (json_str : String) : String :=
  if strStarts json_str "```json" then strTrim (strSlice json_str 7 3)
  else if strStarts json_str "```" then strTrim (strSlice json_str 3 3)
  else if strStarts json_str "`" then strTrim (strSlice json_str 1 1)
  else json_str

/-- The guard of json_util.py lines 18-23, routing object/array/bool/null/
digit-shaped text to the tolerant repairer. -/
def routedToRepair (t : String) : Bool :=
  (strStarts t "\x7b" && strEnds t "\x7d")
    || (strStarts t "[" && strEnds t "]")
    || t == "true" || t == "false" || t == "null"
    || pyIsDigitStr t

/-- `parse_json_str` (json_util.py lines 15-35).

The two parsers it delegates to are external collaborators, not repository
code, so they are parameters of the embedding: `jsonLoads` models the
standard library `json.loads` (raises on malformed input, hence `Except`),
and `jsonRepairLoads` models the third-party `json_repair.loads`, whose
contract is tolerant best-effort repair that returns a value rather than
raising.  The function routes container-shaped or atom-shaped text to the
repairer, quoted-string-shaped text to the strict parser — swallowing any
parse error and substituting the raw (cleaned) text as the value, per the
comment at json_util.py lines 29-31 — and returns any other text as a plain
string value. -/
def parse_json_str (jsonLoads : String → Except String PyVal)
    (jsonRepairLoads : String → PyVal) (json_str : String) : Except String PyVal :=
  let t := clean_json_str json_str
  if routedToRepair t then
    .ok (jsonRepairLoads t)
  else if strStarts t "\"" && strEnds t "\"" then
    match jsonLoads t with
    | .ok v => .ok v
    | .error _ => .ok (.str t)
  else .ok (.str t)

/-! ## default_compiler.py — compilation cache -/

/-- Outcome of the caching logic at the head of `DefaultCompiler.compile`
(default_compiler.py lines 267-280): `cachedResult` is the early return of
the cached compilation result, `recompiled` is the fall-through to
`_do_compile`, and `keyError` is the uncaught `KeyError` raised by
`compilation_result.dependent_modules_hash[module_filename]` when a current
dependency has no recorded hash. -/
inductive CompileOutcome where
  | cachedResult
  | recompiled
  | keyError
  deriving DecidableEq

/-- The dependency check loop of `DefaultCompiler.compile` (lines 270-275):
iterates the current dependency paths in order; a path without a recorded
hash raises `KeyError`; a recorded hash differing from the current hash
`h p` forces recompilation; otherwise the cached result is returned.  (The
`cached_module_hash is None` disjunct of line 273 cannot fire: recorded
hashes are always strings.) -/
def checkDeps (recorded : List (String × String)) (depPaths : List String)
    (h : String → String) : CompileOutcome :=
  match depPaths with
  | [] => .cachedResult
  | p :: rest =>
    match assocFind recorded p with
    | Option.none => .keyError
    | some cached => if cached ≠ h p then .recompiled else checkDeps recorded rest h

/-- The caching logic of `DefaultCompiler.compile` (lines 267-280): a missing
cache entry recompiles; a present entry is checked dependency by dependency.
`cached` is the recorded `(dependency path, content hash)` list of the cache
entry for the call site's identity, `depPaths` the call site's current
dependency paths, and `h` the current content-hash function (`module_hash`
of each dependency's current text). -/
def compileCacheDecision (cached : Option (List (String × String)))
    (depPaths : List String) (h : String → String) : CompileOutcome :=
  match cached with
  | Option.none => .recompiled
  | some recorded => checkDeps recorded depPaths h

/-- File-system effects performed by the cache writer. -/
inductive FsOp where
  | mkdirParents (path : String)
  | writeAll (path : String) (content : String)
  | renameFile (src dst : String)

/-- Recognizer for rename effects. -/
def FsOp.isRename : FsOp → Bool
  | .renameFile _ _ => true
  | _ => false

/-- Recognizer for write effects. -/
def FsOp.isWrite : FsOp → Bool
  | .writeAll _ _ => true
  | _ => false

/-- `DefaultCompiler._cache_filename` (lines 231-232):
`module_filename.replace('/', '__SLASH__')` joined with the line number and
method name, with extension `.xml`. -/
def cacheFilename (module_filename : String) (line_number : Nat)
    (method_name : String) : String :=
  String.mk (module_filename.data.foldr
    (fun c acc => if c = '/' then "__SLASH__".data ++ acc else c :: acc) [])
    ++ "#" ++ toString line_number ++ "#" ++ method_name ++ ".xml"

/-- The dependency-hash header built by `_save_cache` (lines 255-257): one
`path:hash` line per dependency, in order. -/
def hashLines (deps : List (String × String)) : String :=
  deps.foldl (fun acc pv => acc ++ pv.1 ++ ":" ++ pv.2 ++ "\n") ""

/-- The file-system effect trace of `DefaultCompiler._save_cache`
(lines 247-262): `cache_dir.mkdir(parents=True, exist_ok=True)`, then a
single `open(path, "w")` / `f.write(cache_file_content)` of the full entry
content — hash header, `---` separator, raw compiled artifact — directly to
the destination path.  (The in-memory index update of line 249 is modelled
in the single-flight state machine below.) -/
def save_cache (cache_dir module_filename : String) (line_number : Nat)
    (method_name : String) (deps : List (String × String))
    (response_content : String) : List FsOp :=
  [FsOp.mkdirParents cache_dir,
   FsOp.writeAll
     (cache_dir ++ "/" ++ cacheFilename module_filename line_number method_name)
     (hashLines deps ++ "---\n" ++ response_content)]

/-! ## Concurrency model for `DefaultCompiler.compile`

`compile` is an `async` method; under `asyncio`, control can change tasks
only at `await` points.  For one call-site identity and two concurrent
callers, `compile` therefore executes as atomic segments separated by its
single suspension point, the `await acompletion(...)` inside `_do_compile`
(line 292):

* segment 1 (`Phase.start` → ...): `_get_cache` plus the dependency-hash
  check; on a hit the cached result is returned (`Phase.done`), otherwise
  `_do_compile` is entered and the task suspends awaiting the model
  (`Phase.inflight`);
* segment 2 (`Phase.inflight` → `Phase.done`): the response arrives,
  `_save_cache` fills the in-memory index and the disk file, and the result
  is returned.

Dependency hashes are assumed unchanged across the experiment, so a filled
cache entry checks out as a hit.  The state machine below is this — and
nothing more: `compile` takes no lock and keeps no in-flight table, so no
transition consults any other task's phase. -/

/-- Progress of one caller through `DefaultCompiler.compile`. -/
inductive Phase where
  | start
  | inflight
  | done
  deriving DecidableEq

/-- Shared state of two concurrent `compile` callers for the same call-site
identity: whether the compilation-result cache holds an entry for the
identity, each task's phase, and how many times `_do_compile` was entered. -/
structure SFState where
  cacheFilled : Bool
  phase0 : Phase
  phase1 : Phase
  compiles : Nat
  deriving DecidableEq

/-- Initial state: empty cache, both callers about to call `compile`. -/
def sfInit : SFState := ⟨false, .start, .start, 0⟩

/-- One atomic segment of task `i` (`false` = task 0, `true` = task 1), as
described above. -/
def sfStep (s : SFState) (i : Bool) : SFState :=
  let phase := if i then s.phase1 else s.phase0
  let setPhase : SFState → Phase → SFState := fun st p =>
    if i then { st with phase1 := p } else { st with phase0 := p }
  match phase with
  | .start =>
    if s.cacheFilled then setPhase s .done
    else setPhase { s with compiles := s.compiles + 1 } .inflight
  | .inflight => setPhase { s with cacheFilled := true } .done
  | .done => s

/-- Run a schedule (a list of task choices) from a state. -/
def sfRun (sched : List Bool) (s : SFState) : SFState :=
  sched.foldl sfStep s

/-- Number of compilations in flight (tasks suspended inside
`_do_compile`). -/
def inFlight (s : SFState) : Nat :=
  (if s.phase0 = .inflight then 1 else 0) + (if s.phase1 = .inflight then 1 else 0)

/-! ## Schema resolution — the dataclass fragment of `Type.from_annotation`

The resolver fragment relevant to self-reference: `ast.Name` annotations and
the `List`/`Tuple`/`Dict`/`Union`/`Optional` subscripts, resolved against a
class environment mapping a dataclass name to its ordered field annotations
(the information `call_site.get_dataclass` + `ast.parse` of the dataclass
source provide to `DataclassType.from_annotation`).  `Literal` subscripts,
string-constant annotations and `AliasType` resolution are outside this
fragment and are not modelled; `chain` is the list of class names of the
in-progress enclosing `DataclassType` nodes (the `parent_type` chain walked
at type.py lines 418-424 — wrapper nodes contribute nothing to that walk,
which matches `isinstance(current, DataclassType)`). -/

/-- Annotation ASTs for the modelled fragment: `ast.Name` and
`ast.Subscript` with a `Name` base. -/
inductive Ann where
  | name (id : String)
  | subscript (base : String) (args : List Ann)

/-- Resolver environment: dataclass name to ordered
`(field name, field annotation)` pairs. -/
abbrev REnv : Type := List (String × List (String × Ann))

/-- Resolved schema nodes as built by `from_annotation`: `dc` is a
`DataclassType` node with its resolved fields, and `dcRef cls` is a
reference to the in-progress (placeholder) `DataclassType` node for `cls`
further up the parent chain — the object graph's back-edge. -/
inductive RTy where
  | basic (k : String)
  | anyT
  | listT (item : RTy)
  | tupleT (items : List RTy)
  | dictT (key value : RTy)
  | unionT (branches : List RTy)
  | optT (item : RTy)
  | dc (cls : String) (fields : List (String × RTy))
  | dcRef (cls : String)

/-- Result of a fuel-bounded resolver call: `out` is exhausted fuel (an
embedding artifact: the Python recursion is unbounded), `fail` is the
Python function returning `None`, and `ok val created` carries the resolved
node together with the names of the dataclasses for which a new
`DataclassType` node was constructed during the call, in construction
order. -/
inductive RRes (α : Type) where
  | out
  | fail
  | ok (val : α) (created : List String)

mutual

/-- Fuel-bounded embedding of `Type.from_annotation` (type.py lines 21-59)
restricted to the modelled fragment, with the `DataclassType.from_annotation`
case (lines 401-456) inlined: a basic or `Any` name resolves directly; a
dataclass name found in the environment is first checked against the chain
of in-progress enclosing `DataclassType` nodes (lines 418-424) — a match
returns a reference to the in-progress placeholder and creates nothing —
otherwise a fresh node is created (line 431) and its fields are resolved
under the extended chain; a name that is neither resolves to `fail` (the
`AliasType` fallback is outside the fragment).  `fuel` only bounds
recursion depth. -/
def resolveAnnF (fuel : Nat) (env : REnv) (chain : List String) (a : Ann) :
    RRes RTy :=
  match fuel with
  | 0 => .out
  | fuel + 1 =>
    match a with
    | .name id =>
      if id = "str" ∨ id = "int" ∨ id = "float" ∨ id = "bool" then
        .ok (.basic id) []
      else if id = "Any" then .ok .anyT []
      else
        match assocFind env id with
        | Option.none => .fail
        | some flds =>
          if id ∈ chain then .ok (.dcRef id) []
          else
            match resolveFieldsF fuel env (id :: chain) flds with
            | .out => .out
            | .fail => .fail
            | .ok fts created => .ok (.dc id fts) (id :: created)
    | .subscript base args =>
      if base = "List" ∨ base = "list" then
        match args with
        | [item] =>
          match resolveAnnF fuel env chain item with
          | .out => .out
          | .fail => .fail
          | .ok t created => .ok (.listT t) created
        | _ => .fail
      else if base = "Optional" ∨ base = "optional" then
        match args with
        | [item] =>
          match resolveAnnF fuel env chain item with
          | .out => .out
          | .fail => .fail
          | .ok t created => .ok (.optT t) created
        | _ => .fail
      else if base = "Tuple" ∨ base = "tuple" then
        match resolveArgsF fuel env chain args with
        | .out => .out
        | .fail => .fail
        | .ok ts created => .ok (.tupleT ts) created
      else if base = "Union" ∨ base = "union" then
        match resolveArgsF fuel env chain args with
        | .out => .out
        | .fail => .fail
        | .ok ts created => .ok (.unionT ts) created
      else if base = "Dict" ∨ base = "dict" then
        match args with
        | [kAnn, vAnn] =>
          match resolveAnnF fuel env chain kAnn with
          | .out => .out
          | .fail => .fail
          | .ok kTy createdK =>
            match resolveAnnF fuel env chain vAnn with
            | .out => .out
            | .fail => .fail
            | .ok vTy createdV =>
              -- DictType.from_annotation lines 328-330: only a str key type
              -- is supported (the RuntimeError raised otherwise is modelled
              -- as resolution failure; no claim exercises it).
              match kTy with
              | .basic s => if s = "str" then .ok (.dictT (.basic s) vTy) (createdK ++ createdV) else .fail
              | _ => .fail
        | _ => .fail
      else .fail

/-- The field-resolution loop of `DataclassType.from_annotation`
(lines 444-450): each field annotation is resolved under the extended
chain; a `None` result makes the whole resolution return `None`. -/
def resolveFieldsF (fuel : Nat) (env : REnv) (chain : List String)
    (flds : List (String × Ann)) : RRes (List (String × RTy)) :=
  match fuel with
  | 0 => .out
  | fuel + 1 =>
    match flds with
    | [] => .ok [] []
    | (fname, fa) :: rest =>
      match resolveAnnF fuel env chain fa with
      | .out => .out
      | .fail => .fail
      | .ok t created =>
        match resolveFieldsF fuel env chain rest with
        | .out => .out
        | .fail => .fail
        | .ok ts created2 => .ok ((fname, t) :: ts) (created ++ created2)

/-- The element-resolution loops of the `Tuple`/`Union` subscript cases
(lines 243-249 and 591-597). -/
def resolveArgsF (fuel : Nat) (env : REnv) (chain : List String)
    (args : List Ann) : RRes (List RTy) :=
  match fuel with
  | 0 => .out
  | fuel + 1 =>
    match args with
    | [] => .ok [] []
    | a :: rest =>
      match resolveAnnF fuel env chain a with
      | .out => .out
      | .fail => .fail
      | .ok t created =>
        match resolveArgsF fuel env chain rest with
        | .out => .out
        | .fail => .fail
        | .ok ts created2 => .ok (t :: ts) (created ++ created2)

end

/-- Number of environment classes not yet on the in-progress chain: the
quantity that strictly decreases whenever resolution enters a new
dataclass. -/
def newClasses (env : REnv) (chain : List String) : Nat :=
  ((env.map Prod.fst).filter (fun c => decide (c ∉ chain))).length

/-- Stabilization of a fuel-indexed computation: some fuel suffices, and
every larger fuel gives the same, non-`out` result.  This is the
termination statement for the fuel-bounded resolver: the unbounded Python
recursion it embeds reaches its result at a finite depth. -/
def Stab {α : Type} (g : Nat → RRes α) : Prop :=
  ∃ n, ∀ m, n ≤ m → g m = g n ∧ g n ≠ .out

/-- Class environment with a record `A` that refers back to itself through
`Optional` and reaches `B` from two sibling fields, and a record `B`. -/
def envAB : REnv :=
  [("A", [("s", Ann.subscript "Optional" [Ann.name "A"]),
          ("x", Ann.name "B"), ("y", Ann.name "B")]),
   ("B", [("v", Ann.name "int")])]

/-- Class environment with a record `T` that refers back to itself through
`Optional` from two fields (the `Tree` shape of the type.py comments). -/
def envT : REnv :=
  [("T", [("value", Ann.name "int"),
          ("left", Ann.subscript "Optional" [Ann.name "T"]),
          ("right", Ann.subscript "Optional" [Ann.name "T"])])]

/-- One entry of the `try_results` list of the untagged-union best-effort
loop (type.py lines 661-668): the strictly converted value of one branch,
or `None` when the branch raised `ValueConversionError` — exactly what
`try_results` records, in which a caught error and a successful conversion
to `None` are indistinguishable. -/
def strictAttempt (fuel : Nat) (env : Env) (b : Ty) (value : PyVal)
    (field_path : String) : PyVal :=
  match convert fuel env b value (field_path ++ ".__value") true with
  | .ok v => v
  | .error _ => PyVal.none

-- Worked examples of the spec, used by several claims below.

def pointEnv : Env := [("Point", [("x", Ty.basic "int"), ("y", Ty.basic "int")])]

example :
    convert 9 pointEnv (.record "Point")
      (.dict [("x", .int 3), ("y", .str "4")]) "root" false
      = .ok (.dcInst "Point" [("x", .int 3), ("y", .int 4)]) := rfl

example :
    convert 9 pointEnv (.record "Point")
      (.dict [("x", .int 3), ("y", .str "4")]) "root" true
      = .error (.conversion "root.y expected to be int or float, but got str") := rfl

def catDogEnv : Env :=
  [("Cat", [("sound", Ty.basic "str")]), ("Dog", [("sound", Ty.basic "str")])]

example :
    convert 9 catDogEnv (.union [.record "Cat", .record "Dog"])
      (.dict [("sound", .str "woof")]) "root" false
      = .error (.conversion "root expected to have __type_name and __value") := rfl

/-! ## Auxiliary lemmas -/

/-- Every schema node has positive size. -/
theorem ty_sizeOf_pos (t : Ty) : 0 < sizeOf t := by
  cases t <;> simp

/-! ## Claim C10 -/

/-- C10: for every schema kind — primitives, Tuple, List, Dict, Record,
Union, Literal, Optional, Alias, Any — and in both strict and lenient modes,
materializing the wire value `null` succeeds and returns `None`; the null
check precedes every kind-specific check in each converter.  (`fuel` must
majorize the schema size because alias nodes delegate before checking.) -/
theorem C10_null_materializes_to_none (fuel : Nat) (t : Ty)
    (ht : sizeOf t ≤ fuel) (env : Env) (path : String) (strict : Bool) :
    convert fuel env t PyVal.none path strict = .ok PyVal.none := by
  revert t
  induction fuel using Nat.strong_induction_on with
  | _ fuel ih =>
    intro t ht
    cases fuel with
    | zero => exact absurd ht (by have := ty_sizeOf_pos t; omega)
    | succ fuel =>
      cases t with
      | basic k => cases strict <;> simp [convert, convertBasicStrict, convertBasicLenient]
      | list item => simp [convert]
      | tuple items => simp [convert]
      | dict vt => simp [convert]
      | record cls => simp [convert]
      | union branches => simp [convert]
      | lit values => simp [convert]
      | opt item => simp [convert]
      | aliasT nm target =>
        have h1 : sizeOf target ≤ fuel := by simp at ht; omega
        simpa [convert] using ih fuel (Nat.lt_succ_self fuel) target h1
      | any => simp [convert]

/-- Witness for C10 at a concrete schema and fuel. -/
theorem C10_witness :
    sizeOf (Ty.opt Ty.any) ≤ 3 ∧
    convert 3 [] (Ty.opt Ty.any) PyVal.none "root" true = .ok PyVal.none :=
  ⟨by decide, C10_null_materializes_to_none 3 (Ty.opt Ty.any) (by decide) [] "root" true⟩

/-! ## Claim C6 -/

/-- C6 counterexample: at a concrete identity, the effect trace of
`_save_cache` is a directory creation followed by one direct write of the
full entry content to the destination path; it contains no write to a
temporary file and no rename, contradicting the claimed
write-to-temp-then-rename mechanism. -/
theorem C6_counterexample :
    save_cache "/cache" "a/b.py" 42 "op" [("a/b.py", "h1")] "<artifact/>"
      = [FsOp.mkdirParents "/cache",
         FsOp.writeAll "/cache/a__SLASH__b.py#42#op.xml" "a/b.py:h1\n---\n<artifact/>"]
    ∧ (save_cache "/cache" "a/b.py" 42 "op" [("a/b.py", "h1")] "<artifact/>").all
        (fun op => !op.isRename) = true :=
  ⟨rfl, rfl⟩

/-- C6 amended: persisting a cache entry writes the dependency-hash header,
the `---` separator and the artifact in a single direct write to the
destination path (after creating the cache directory); no temporary file and
no rename is involved. -/
theorem C6_save_cache_direct_write (cache_dir module_filename : String)
    (line_number : Nat) (method_name : String) (deps : List (String × String))
    (content : String) :
    save_cache cache_dir module_filename line_number method_name deps content
      = [FsOp.mkdirParents cache_dir,
         FsOp.writeAll
           (cache_dir ++ "/" ++ cacheFilename module_filename line_number method_name)
           (hashLines deps ++ "---\n" ++ content)]
    ∧ ∀ op ∈ save_cache cache_dir module_filename line_number method_name deps content,
        op.isRename = false := by
  refine ⟨rfl, ?_⟩
  intro op hop
  simp only [save_cache, List.mem_cons, List.not_mem_nil, or_false] at hop
  rcases hop with h | h <;> subst h <;> rfl

/-! ## Claim C9 -/

/-- C9 counterexample: from an empty cache, the schedule in which both
callers run their first segment before either completes leaves two
compilations for the same identity simultaneously in flight, and both run
`_do_compile`; the second caller neither awaits nor receives the in-flight
result. -/
theorem C9_counterexample :
    inFlight (sfRun [false, true] sfInit) = 2
    ∧ (sfRun [false, true, false, true] sfInit).compiles = 2 :=
  ⟨rfl, rfl⟩

/-- C9 amended: `DefaultCompiler.compile` has no single-flight guard: a
caller that checks the cache while another compilation for the same identity
is in flight starts its own duplicate compilation (two in flight at once,
two `_do_compile` runs in total), whereas a caller that starts only after an
earlier compilation has saved its result is served from the cache without
compiling (one `_do_compile` run in total, both callers done). -/
theorem C9_no_single_flight :
    inFlight (sfRun [false, true] sfInit) = 2
    ∧ (sfRun [false, true, false, true] sfInit).compiles = 2
    ∧ (sfRun [false, true, false, true] sfInit).phase0 = Phase.done
    ∧ (sfRun [false, true, false, true] sfInit).phase1 = Phase.done
    ∧ (sfRun [false, false, true] sfInit).compiles = 1
    ∧ (sfRun [false, false, true] sfInit).phase0 = Phase.done
    ∧ (sfRun [false, false, true] sfInit).phase1 = Phase.done :=
  ⟨rfl, rfl, rfl, rfl, rfl, rfl, rfl⟩

/-! ## Claim C7 -/

/-- C7 counterexample: a response shaped like a quoted JSON string on which
the strict parser fails does not surface the parse error — `parse_json_str`
swallows it and returns the raw (cleaned) text itself as the value.  The
strict parser is a parameter of the embedding; here it is instantiated with
a parser that fails on this input, as `json.loads` does on a string with an
unescaped inner quote. -/
theorem C7_counterexample :
    parse_json_str (fun _ => .error "Extra data: line 1 column 4 (char 3)")
      (fun _ => PyVal.none) "\"a\"b\""
      = .ok (.str "\"a\"b\"") := rfl

/-! ## Claim C4 (counterexample) -/

/-- C4 counterexample: in strict mode a primitive schema does not require an
exact wire-kind match: an `int` schema accepts a bool wire value (CPython
bools are instances of `int`) and a `float` schema accepts an int wire
value, both returned unchanged instead of raising a kind mismatch. -/
theorem C4_counterexample :
    convert 2 [] (.basic "int") (.bool true) "root" true = .ok (.bool true)
    ∧ convert 2 [] (.basic "float") (.int 3) "root" true = .ok (.int 3) :=
  ⟨rfl, rfl⟩

/-! ## Claim C3 (counterexample) -/

/-- C3 counterexample: in lenient mode the payload of a tagged union
envelope is *not* materialized strictly: the selected branch receives the
lenient flag (type.py line 685), so payload `"5"` against branch `int`
succeeds with `5`, although the strict materialization of the same payload
against the same branch raises a kind mismatch. -/
theorem C3_counterexample :
    convert 3 [] (.union [.basic "int"])
      (.dict [("__type_name", .str "int"), ("__value", .str "5")]) "root" false
      = .ok (.int 5)
    ∧ convert 2 [] (.basic "int") (.str "5") "root.__value" true
      = .error (.conversion "root.__value expected to be int or float, but got str") :=
  ⟨rfl, rfl⟩

/-! ## Claim C8 (counterexample) -/

/-- C8 counterexample: resolving record `A` — self-referencing through
`Optional`, with two sibling fields of record type `B` — terminates, but
creates a `DataclassType` node for `B` twice (once per sibling occurrence):
the in-progress chain check only deduplicates along the ancestor chain, so
resolution does not create exactly one node per distinct record declaration
in scope. -/
theorem C8_counterexample :
    resolveAnnF 9 envAB [] (.name "A") =
      .ok (.dc "A" [("s", .optT (.dcRef "A")),
                    ("x", .dc "B" [("v", .basic "int")]),
                    ("y", .dc "B" [("v", .basic "int")])]) ["A", "B", "B"] := rfl

/-! ## Claim C5 -/

/-- The dependency check reports a cache hit exactly when every current
dependency's recorded hash equals its current hash. -/
theorem checkDeps_hit_iff (recorded : List (String × String))
    (deps : List String) (h : String → String) :
    checkDeps recorded deps h = .cachedResult ↔
      ∀ p ∈ deps, assocFind recorded p = some (h p) := by
  induction deps with
  | nil => simp [checkDeps]
  | cons p rest ih =>
    simp only [checkDeps]
    cases hfind : assocFind recorded p with
    | none => simp [hfind]
    | some v =>
      by_cases hv : v ≠ h p
      · simp only [if_pos hv]
        constructor
        · intro hcontra; cases hcontra
        · intro hall
          have := hall p (by simp)
          rw [hfind] at this
          cases this
          exact absurd rfl hv
      · push_neg at hv
        subst hv
        simp only [ne_eq, not_true_eq_false, if_neg, ite_false, not_false_eq_true]
        rw [ih]
        constructor
        · intro hall q hq
          rcases List.mem_cons.mp hq with rfl | hq'
          · exact hfind
          · exact hall q hq'
        · intro hall q hq
          exact hall q (List.mem_cons_of_mem _ hq)

/-- A single recorded-vs-current hash mismatch forces recompilation, as long
as every current dependency has a recorded hash. -/
theorem checkDeps_mismatch (recorded : List (String × String))
    (deps : List String) (h : String → String)
    (hcov : ∀ p ∈ deps, ∃ v, assocFind recorded p = some v)
    (p : String) (hp : p ∈ deps) (v : String)
    (hv : assocFind recorded p = some v) (hne : v ≠ h p) :
    checkDeps recorded deps h = .recompiled := by
  induction deps with
  | nil => cases hp
  | cons q rest ih =>
    obtain ⟨w, hw⟩ := hcov q (by simp)
    simp only [checkDeps, hw]
    by_cases hwq : w ≠ h q
    · simp [hwq]
    · push_neg at hwq
      subst hwq
      simp only [ne_eq, not_true_eq_false, if_neg, ite_false, not_false_eq_true]
      rcases List.mem_cons.mp hp with rfl | hp'
      · rw [hv] at hw
        cases hw
        exact absurd rfl hne
      · exact ih (fun r hr => hcov r (List.mem_cons_of_mem _ hr)) hp'

/-- The dependency check consults the current hash function only on the
dependency paths. -/
theorem checkDeps_congr (recorded : List (String × String))
    (deps : List String) (h h2 : String → String)
    (hagree : ∀ p ∈ deps, h2 p = h p) :
    checkDeps recorded deps h2 = checkDeps recorded deps h := by
  induction deps with
  | nil => rfl
  | cons p rest ih =>
    simp only [checkDeps]
    cases hfind : assocFind recorded p with
    | none => rfl
    | some v =>
      rw [hagree p (by simp)]
      by_cases hv : v ≠ h p
      · simp [hv]
      · push_neg at hv
        subst hv
        simp only [ne_eq, not_true_eq_false, if_neg, ite_false, not_false_eq_true]
        exact ih (fun q hq => hagree q (List.mem_cons_of_mem _ hq))

/-- C5: a cache lookup returns the cached artifact iff every current
dependency's content hash equals its recorded hash; any single
recorded-vs-current mismatch on a dependency path forces recompilation; and
the decision depends on the hash function only at the dependency paths, so
changing files outside the dependency set cannot turn a hit into a miss.
(The coverage hypothesis reflects that a current dependency without a
recorded hash raises `KeyError` at default_compiler.py line 272 instead of
reporting a miss.) -/
theorem C5_cache_hash_invalidation (recorded : List (String × String))
    (depPaths : List String) (h : String → String)
    (hcov : ∀ p ∈ depPaths, ∃ v, assocFind recorded p = some v) :
    (compileCacheDecision (some recorded) depPaths h = .cachedResult ↔
       ∀ p ∈ depPaths, assocFind recorded p = some (h p))
    ∧ (∀ p ∈ depPaths, ∀ v, assocFind recorded p = some v → v ≠ h p →
        compileCacheDecision (some recorded) depPaths h = .recompiled)
    ∧ (∀ h2 : String → String, (∀ p ∈ depPaths, h2 p = h p) →
        compileCacheDecision (some recorded) depPaths h2
          = compileCacheDecision (some recorded) depPaths h) := by
  refine ⟨?_, ?_, ?_⟩
  · exact checkDeps_hit_iff recorded depPaths h
  · intro p hp v hv hne
    exact checkDeps_mismatch recorded depPaths h hcov p hp v hv hne
  · intro h2 hagree
    exact checkDeps_congr recorded depPaths h h2 hagree

/-- Witness for C5 at a concrete cache entry: with recorded hashes matching
the current ones the lookup is a hit; changing the content hash of recorded
dependency `a` makes it a miss. -/
theorem C5_witness :
    compileCacheDecision (some [("a", "h1"), ("b", "h2")]) ["a", "b"]
        (fun p => if p = "a" then "h1" else "h2") = .cachedResult
    ∧ compileCacheDecision (some [("a", "h1"), ("b", "h2")]) ["a", "b"]
        (fun p => if p = "a" then "CHANGED" else "h2") = .recompiled := by
  have hcov : ∀ p ∈ ["a", "b"], ∃ v, assocFind [("a", "h1"), ("b", "h2")] p = some v := by
    intro p hp
    rcases List.mem_cons.mp hp with rfl | hp'
    · exact ⟨"h1", rfl⟩
    · rcases List.mem_cons.mp hp' with rfl | hp''
      · exact ⟨"h2", rfl⟩
      · cases hp''
  constructor
  · refine (C5_cache_hash_invalidation [("a", "h1"), ("b", "h2")] ["a", "b"]
      (fun p => if p = "a" then "h1" else "h2") hcov).1.mpr ?_
    intro p hp
    rcases List.mem_cons.mp hp with rfl | hp'
    · rfl
    · rcases List.mem_cons.mp hp' with rfl | hp''
      · rfl
      · cases hp''
  · exact (C5_cache_hash_invalidation [("a", "h1"), ("b", "h2")] ["a", "b"]
      (fun p => if p = "a" then "CHANGED" else "h2") hcov).2.1 "a" (by simp) "h1" rfl
      (by decide)

/-! ## Claim C7 (amended theorem) -/

/-- C7 amended: the parsing step never raises to the caller, whatever the
strict parser does: object/array/bool/null/digit-shaped responses are handed
to the tolerant repairer without any prior strict parse; quoted-string-shaped
responses are strict-parsed and, when the strict parser fails, the raw
cleaned text itself is returned as the value (the parse error is swallowed);
any other response text is returned as a plain string value. -/
theorem C7_parse_never_raises (jsonLoads : String → Except String PyVal)
    (jsonRepairLoads : String → PyVal) (s : String) :
    (∃ v, parse_json_str jsonLoads jsonRepairLoads s = .ok v)
    ∧ (routedToRepair (clean_json_str s) = true →
        parse_json_str jsonLoads jsonRepairLoads s
          = .ok (jsonRepairLoads (clean_json_str s)))
    ∧ (routedToRepair (clean_json_str s) = false →
        (strStarts (clean_json_str s) "\"" && strEnds (clean_json_str s) "\"") = true →
        ∀ e, jsonLoads (clean_json_str s) = .error e →
        parse_json_str jsonLoads jsonRepairLoads s
          = .ok (.str (clean_json_str s))) := by
  refine ⟨?_, ?_, ?_⟩
  · by_cases h1 : routedToRepair (clean_json_str s)
    · exact ⟨jsonRepairLoads (clean_json_str s), by simp [parse_json_str, h1]⟩
    · by_cases h2 : (strStarts (clean_json_str s) "\"" && strEnds (clean_json_str s) "\"") = true
      · cases h3 : jsonLoads (clean_json_str s) with
        | ok v => exact ⟨v, by simp [parse_json_str, h1, h2, h3]⟩
        | error e => exact ⟨.str (clean_json_str s), by simp [parse_json_str, h1, h2, h3]⟩
      · exact ⟨.str (clean_json_str s), by simp [parse_json_str, h1, h2]⟩
  · intro h1
    simp [parse_json_str, h1]
  · intro h1 h2 e h3
    simp [parse_json_str, h1, h2, h3]

/-- Witness for C7 at a concrete quoted-shaped response on which the strict
parser fails. -/
theorem C7_witness :
    routedToRepair (clean_json_str "\"a\"b\"") = false
    ∧ (strStarts (clean_json_str "\"a\"b\"") "\""
        && strEnds (clean_json_str "\"a\"b\"") "\"") = true
    ∧ parse_json_str (fun _ => .error "Extra data: line 1 column 4 (char 3)")
        (fun _ => PyVal.none) "\"a\"b\"" = .ok (.str "\"a\"b\"") :=
  ⟨rfl, rfl,
    (C7_parse_never_raises (fun _ => .error "Extra data: line 1 column 4 (char 3)")
      (fun _ => PyVal.none) "\"a\"b\"").2.2 rfl rfl
      "Extra data: line 1 column 4 (char 3)" rfl⟩

/-! ## Claim C4 (amended theorem) -/

/-- C4 amended: strict primitive materialization checks the wire value with
Python `isinstance`: a `str` schema accepts exactly strings and a `bool`
schema exactly booleans, while the `int` and `float` schemas each accept
int, float *and* bool wire values (CPython bools are instances of `int`),
returning the accepted value unchanged; any other kind fails with a
kind-mismatch `ValueConversionError` whose message begins with the path.
Lenient materialization coerces compatible scalars, as in the spec's worked
example: `Point{x:Int,y:Int}` against `{"x":3,"y":"4"}` yields
`Point(x=3,y=4)` leniently and a kind mismatch at `root.y` strictly. -/
theorem C4_strict_primitive_kinds (fuel : Nat) (env : Env) (path : String)
    (v : PyVal) (hv : v ≠ PyVal.none) :
    ((convert (fuel+1) env (.basic "str") v path true = .ok v ↔ ∃ s, v = .str s)
    ∧ (convert (fuel+1) env (.basic "bool") v path true = .ok v ↔ ∃ b, v = .bool b)
    ∧ (convert (fuel+1) env (.basic "int") v path true = .ok v ↔
        ((∃ n, v = .int n) ∨ (∃ q, v = .float q) ∨ (∃ b, v = .bool b)))
    ∧ (convert (fuel+1) env (.basic "float") v path true = .ok v ↔
        ((∃ n, v = .int n) ∨ (∃ q, v = .float q) ∨ (∃ b, v = .bool b)))
    ∧ (∀ k, k = "str" ∨ k = "int" ∨ k = "float" ∨ k = "bool" →
        convert (fuel+1) env (.basic k) v path true = .ok v
        ∨ ∃ m, convert (fuel+1) env (.basic k) v path true
            = .error (.conversion (path ++ m))))
    ∧ convert 9 pointEnv (.record "Point")
        (.dict [("x", .int 3), ("y", .str "4")]) "root" false
        = .ok (.dcInst "Point" [("x", .int 3), ("y", .int 4)])
    ∧ convert 9 pointEnv (.record "Point")
        (.dict [("x", .int 3), ("y", .str "4")]) "root" true
        = .error (.conversion "root.y expected to be int or float, but got str") := by
  refine ⟨⟨?_, ?_, ?_, ?_, ?_⟩, rfl, rfl⟩
  · cases v <;> simp [convert, convertBasicStrict]
    exact absurd rfl hv
  · cases v <;> simp [convert, convertBasicStrict]
    exact absurd rfl hv
  · cases v <;> simp [convert, convertBasicStrict]
    exact absurd rfl hv
  · cases v <;> simp [convert, convertBasicStrict]
    exact absurd rfl hv
  · intro k hk
    rcases hk with rfl | rfl | rfl | rfl <;>
      cases v <;> simp [convert, convertBasicStrict] <;>
      first
        | exact absurd rfl hv
        | exact ⟨_, by rw [String.append_assoc]⟩

/-- Witness for C4 at concrete inputs: a string is accepted by a strict
`str` schema, and a string against a strict `int` schema produces a
kind-mismatch error carrying the path. -/
theorem C4_witness :
    convert 2 [] (.basic "str") (.str "x") "root" true = .ok (.str "x")
    ∧ ∃ m, convert 2 [] (.basic "int") (.str "x") "root" true
        = .error (.conversion ("root" ++ m)) :=
  ⟨(C4_strict_primitive_kinds 1 [] "root" (.str "x")
      (fun h => PyVal.noConfusion h)).1.1.mpr ⟨"x", rfl⟩,
   ((C4_strict_primitive_kinds 1 [] "root" (.str "x")
      (fun h => PyVal.noConfusion h)).1.2.2.2.2 "int"
      (Or.inr (Or.inl rfl))).resolve_left (by intro h; cases h)⟩

/-! ## Claim C3 (amended theorem) -/

/-- C3 amended: for a tagged union envelope — an object whose `__type_name`
is a string and whose `__value` is non-null — the branch whose canonical tag
(`repr`) exactly equals the envelope tag is selected regardless of its
position in the branch list, and the payload is then materialized *in the
prevailing mode* (strictly when the union is materialized strictly,
leniently when leniently); a tag matching no branch fails the
materialization. -/
theorem C3_union_tagged_dispatch (fuel : Nat) (env : Env) (branches : List Ty)
    (kvs : List (String × PyVal)) (path : String) (strict : Bool) (tag : String)
    (payload : PyVal) (t : Ty) (l1 l2 : List Ty)
    (htn : pyGet kvs "__type_name" = .str tag)
    (htv : pyGet kvs "__value" = payload) (hp : payload ≠ PyVal.none) :
    (branches = l1 ++ t :: l2 → tyRepr t = tag → (∀ u ∈ l1, tyRepr u ≠ tag) →
      convert (fuel+1) env (.union branches) (.dict kvs) path strict
        = convert fuel env t payload (path ++ ".__value") strict)
    ∧ ((∀ u ∈ branches, tyRepr u ≠ tag) →
      convert (fuel+1) env (.union branches) (.dict kvs) path strict
        = .error (.conversion (path ++ " has invalid __type_name"))) := by
  have hred : convert (fuel+1) env (.union branches) (.dict kvs) path strict
      = (match branches.find? (fun u => tyRepr u == tag) with
         | some actual => convert fuel env actual payload (path ++ ".__value") strict
         | Option.none => .error (.conversion (path ++ " has invalid __type_name"))) := by
    cases payload with
    | none => exact absurd rfl hp
    | bool b => simp [convert, htn, htv]
    | int n => simp [convert, htn, htv]
    | float q => simp [convert, htn, htv]
    | str s => simp [convert, htn, htv]
    | list xs => simp [convert, htn, htv]
    | tuple xs => simp [convert, htn, htv]
    | dict d => simp [convert, htn, htv]
    | dcInst c f => simp [convert, htn, htv]
  constructor
  · intro hbr ht hl1
    subst hbr
    rw [hred, List.find?_append]
    have h1 : l1.find? (fun u => tyRepr u == tag) = Option.none :=
      List.find?_eq_none.mpr (fun u hu => by simp [hl1 u hu])
    have h2 : (t :: l2).find? (fun u => tyRepr u == tag) = some t :=
      List.find?_cons_of_pos _ (by simp [ht])
    rw [h1, h2]
    rfl
  · intro hall
    rw [hred, List.find?_eq_none.mpr (fun u hu => by simp [hall u hu])]

/-- Witness for C3: the tag `int` selects the second branch past a first
branch with a different tag, and the payload is materialized in the current
(strict) mode; a tag matching no branch fails. -/
theorem C3_witness :
    convert 3 [] (.union [.basic "str", .basic "int"])
        (.dict [("__type_name", .str "int"), ("__value", .int 7)]) "root" true
      = convert 2 [] (.basic "int") (.int 7) "root.__value" true
    ∧ convert 3 [] (.union [.basic "str"])
        (.dict [("__type_name", .str "Cat"), ("__value", .int 7)]) "root" false
      = .error (.conversion "root has invalid __type_name") :=
  ⟨(C3_union_tagged_dispatch 2 [] [.basic "str", .basic "int"]
      [("__type_name", .str "int"), ("__value", .int 7)] "root" true "int"
      (.int 7) (.basic "int") [.basic "str"] [] rfl rfl
      (fun h => PyVal.noConfusion h)).1 rfl rfl
      (by
        intro u hu
        rcases List.mem_singleton.mp hu with rfl
        decide),
   (C3_union_tagged_dispatch 2 [] [.basic "str"]
      [("__type_name", .str "Cat"), ("__value", .int 7)] "root" false "Cat"
      (.int 7) Ty.any [] [] rfl rfl
      (fun h => PyVal.noConfusion h)).2
      (by
        intro u hu
        rcases List.mem_singleton.mp hu with rfl
        decide)⟩

/-! ## Claim C2 -/

/-- When every branch attempt either succeeds or raises
`ValueConversionError` (the only exception the loop catches — and the only
kind strict materialization raises), the untagged-union loop returns the
`try_results` value list. -/
theorem convTry_eq_map (fuel : Nat) (env : Env) (branches : List Ty)
    (value : PyVal) (path : String)
    (hcaught : ∀ b ∈ branches,
      (∃ v, convert fuel env b value (path ++ ".__value") true = .ok v)
      ∨ (∃ m, convert fuel env b value (path ++ ".__value") true
          = .error (.conversion m))) :
    convTry (fun ty v p => convert fuel env ty v p true) branches value path
      = .ok (branches.map (fun b => strictAttempt fuel env b value path)) := by
  induction branches with
  | nil => rfl
  | cons b rest ih =>
    have hrest := ih (fun u hu => hcaught u (List.mem_cons_of_mem _ hu))
    rcases hcaught b (by simp) with ⟨v, hv⟩ | ⟨m, hm⟩
    · simp only [convTry, hv, strictAttempt, hrest, List.map]
      rfl
    · simp only [convTry, hm, strictAttempt, hrest, List.map]
      rfl

/-- Reduction of a lenient union materialization on a wire object without
the tag/payload envelope to the best-effort loop. -/
theorem union_untagged_unfold (fuel : Nat) (env : Env) (branches : List Ty)
    (kvs : List (String × PyVal)) (path : String)
    (hun : pyGet kvs "__type_name" = PyVal.none ∨ pyGet kvs "__value" = PyVal.none) :
    convert (fuel+1) env (.union branches) (.dict kvs) path false
      = (match convTry (fun ty v p => convert fuel env ty v p true)
            branches (.dict kvs) path with
         | .error e => .error e
         | .ok tries => pickUnique path tries) := by
  rcases hun with h | h
  · simp only [convert, h]
    cases convTry (fun ty v p => convert fuel env ty v p true) branches (.dict kvs) path <;> rfl
  · cases htn : pyGet kvs "__type_name" <;>
      simp only [convert, htn, h] <;>
      cases convTry (fun ty v p => convert fuel env ty v p true) branches (.dict kvs) path <;> rfl

/-- C2: in lenient mode, a union materialized against a wire object that
does not carry the tag/payload envelope attempts every branch strictly;
when exactly one entry of `try_results` is non-None its value is returned,
and when zero or two-or-more entries are non-None the materialization fails
with the ambiguity error — in particular `Union[Cat, Dog]` against the
untagged `{"sound": "woof"}` always fails because both branches
structurally match.  (The hypothesis that each branch attempt either
succeeds or raises `ValueConversionError` is what the strict attempts
guarantee; any other exception would propagate uncaught.) -/
theorem C2_union_untagged_best_effort (fuel : Nat) (env : Env)
    (branches : List Ty) (kvs : List (String × PyVal)) (path : String)
    (hun : pyGet kvs "__type_name" = PyVal.none ∨ pyGet kvs "__value" = PyVal.none)
    (hcaught : ∀ b ∈ branches,
      (∃ v, convert fuel env b (.dict kvs) (path ++ ".__value") true = .ok v)
      ∨ (∃ m, convert fuel env b (.dict kvs) (path ++ ".__value") true
          = .error (.conversion m))) :
    (∀ w, (branches.map (fun b => strictAttempt fuel env b (.dict kvs) path)).filter
        pyIsNotNone = [w] →
      convert (fuel+1) env (.union branches) (.dict kvs) path false = .ok w)
    ∧ (((branches.map (fun b => strictAttempt fuel env b (.dict kvs) path)).filter
        pyIsNotNone).length ≠ 1 →
      convert (fuel+1) env (.union branches) (.dict kvs) path false
        = .error (.conversion (path ++ " expected to have __type_name and __value")))
    ∧ convert 9 catDogEnv (.union [.record "Cat", .record "Dog"])
        (.dict [("sound", .str "woof")]) "root" false
        = .error (.conversion "root expected to have __type_name and __value") := by
  have hu := union_untagged_unfold fuel env branches kvs path hun
  have hm := convTry_eq_map fuel env branches (.dict kvs) path hcaught
  refine ⟨?_, ?_, rfl⟩
  · intro w hw
    rw [hu, hm]
    simp [pickUnique, hw]
  · intro hlen
    rw [hu, hm]
    rcases hfl : (branches.map (fun b => strictAttempt fuel env b (.dict kvs) path)).filter
        pyIsNotNone with _ | ⟨a, _ | ⟨b2, rest2⟩⟩
    · simp [pickUnique, hfl]
    · rw [hfl] at hlen; simp at hlen
    · simp [pickUnique, hfl]

/-- Witness for C2 at the spec's Cat/Dog example: both strict attempts
succeed, `try_results` carries two non-None entries, and the lenient union
materialization fails with the ambiguity error. -/
theorem C2_witness :
    convert 9 catDogEnv (.union [.record "Cat", .record "Dog"])
      (.dict [("sound", .str "woof")]) "root" false
      = .error (.conversion "root expected to have __type_name and __value") := by
  refine (C2_union_untagged_best_effort 8 catDogEnv [.record "Cat", .record "Dog"]
    [("sound", .str "woof")] "root" (Or.inl rfl) ?_).2.1 (by decide)
  intro b hb
  rcases List.mem_cons.mp hb with rfl | hb'
  · exact Or.inl ⟨.dcInst "Cat" [("sound", .str "woof")], rfl⟩
  · rcases List.mem_cons.mp hb' with rfl | hb''
    · exact Or.inl ⟨.dcInst "Dog" [("sound", .str "woof")], rfl⟩
    · cases hb''

/-! ## Claim C1 -/

/-- First-match lookup is unaffected by dropping entries whose keys the
predicate keeps intact at the looked-up key. -/
theorem assocFind_filter {α : Type} (p : String × α → Bool)
    (kvs : List (String × α)) (k : String) (hp : ∀ v, p (k, v) = true) :
    assocFind (kvs.filter p) k = assocFind kvs k := by
  induction kvs with
  | nil => rfl
  | cons kv rest ih =>
    obtain ⟨k2, v⟩ := kv
    by_cases hk : k2 = k
    · subst hk
      simp [List.filter_cons, hp v, assocFind]
    · by_cases hpv : p (k2, v) = true
      · simp [List.filter_cons, hpv, assocFind, hk, ih]
      · simp [List.filter_cons, hpv, assocFind, hk, ih]

/-- The lenient field loop consults the input object only at declared field
names: entries with undeclared keys can be dropped without changing the
result. -/
theorem convFieldsL_filter (conv : Ty → PyVal → String → Except ConvErr PyVal)
    (flds : List (String × Ty)) (kvs : List (String × PyVal)) (path : String)
    (names : List String) (hsub : ∀ fn ∈ flds.map Prod.fst, fn ∈ names) :
    convFieldsL conv flds (kvs.filter (fun kv => decide (kv.1 ∈ names))) path
      = convFieldsL conv flds kvs path := by
  revert hsub
  induction flds with
  | nil => intro _; rfl
  | cons fld rest ih =>
    intro hsub
    obtain ⟨fname, ftype⟩ := fld
    have hf : fname ∈ names := hsub fname (by simp)
    have hfind := assocFind_filter (fun kv => decide (kv.1 ∈ names)) kvs fname
      (fun v => by simp [hf])
    have hrest := ih (fun fn hfn => hsub fn (by simp [hfn]))
    simp only [convFieldsL, hfind, hrest]

/-- The strict field loop consults the input object only at declared field
names. -/
theorem convFieldsS_filter (conv : Ty → PyVal → String → Except ConvErr PyVal)
    (flds : List (String × Ty)) (kvs : List (String × PyVal)) (path : String)
    (names : List String) (hsub : ∀ fn ∈ flds.map Prod.fst, fn ∈ names) :
    convFieldsS conv flds (kvs.filter (fun kv => decide (kv.1 ∈ names))) path
      = convFieldsS conv flds kvs path := by
  revert hsub
  induction flds with
  | nil => intro _; rfl
  | cons fld rest ih =>
    intro hsub
    obtain ⟨fname, ftype⟩ := fld
    have hf : fname ∈ names := hsub fname (by simp)
    have hfind := assocFind_filter (fun kv => decide (kv.1 ∈ names)) kvs fname
      (fun v => by simp [hf])
    have hrest := ih (fun fn hfn => hsub fn (by simp [hfn]))
    simp only [convFieldsS, hfind, hrest]

/-- Bind reduction for `Except` (do-notation on a known constructor). -/
theorem except_bind_ok {ε α β : Type} (a : α) (f : α → Except ε β) :
    (do let x ← Except.ok a; f x) = f a := rfl

/-- Bind propagation for `Except` (do-notation on a known error). -/
theorem except_bind_err {ε α β : Type} (e : ε) (f : α → Except ε β) :
    (do let x ← (Except.error e : Except ε α); f x) = Except.error e := rfl

/-- On success, the lenient field loop binds every declared field missing
from the input to `None`. -/
theorem convFieldsL_missing (conv : Ty → PyVal → String → Except ConvErr PyVal)
    (flds : List (String × Ty)) (kvs : List (String × PyVal)) (path : String)
    (fname : String) (hmem : fname ∈ flds.map Prod.fst)
    (hmiss : assocFind kvs fname = Option.none) :
    ∀ fvs, convFieldsL conv flds kvs path = .ok fvs →
      assocFind fvs fname = some PyVal.none := by
  revert hmem
  induction flds with
  | nil => intro hmem; cases hmem
  | cons fld rest ih =>
    intro hmem fvs hfvs
    obtain ⟨g, gt⟩ := fld
    by_cases hg : g = fname
    · subst hg
      rw [convFieldsL, hmiss] at hfvs
      cases hrec : convFieldsL conv rest kvs path with
      | error e => rw [hrec] at hfvs; cases hfvs
      | ok out =>
        rw [hrec] at hfvs
        cases hfvs
        simp [assocFind]
    · have hmem' : fname ∈ rest.map Prod.fst := by
        rcases List.mem_cons.mp hmem with h | h
        · exact absurd h.symm hg
        · exact h
      rw [convFieldsL] at hfvs
      cases hfind : assocFind kvs g with
      | none =>
        simp only [hfind] at hfvs
        cases hrec : convFieldsL conv rest kvs path with
        | error e => simp only [hrec, except_bind_err] at hfvs; cases hfvs
        | ok out =>
          simp only [hrec, except_bind_ok] at hfvs
          cases hfvs
          simp only [assocFind, if_neg hg]
          exact ih hmem' out hrec
      | some fv =>
        simp only [hfind] at hfvs
        cases hconv : conv gt fv (path ++ "." ++ g) with
        | error e => simp only [hconv, except_bind_err] at hfvs; cases hfvs
        | ok cv =>
          simp only [hconv, except_bind_ok] at hfvs
          cases hrec : convFieldsL conv rest kvs path with
          | error e => simp only [hrec, except_bind_err] at hfvs; cases hfvs
          | ok out =>
            simp only [hrec, except_bind_ok] at hfvs
            cases hfvs
            simp only [assocFind, if_neg hg]
            exact ih hmem' out hrec

/-- The strict field loop never succeeds when a declared field is missing
from the input. -/
theorem convFieldsS_missing (conv : Ty → PyVal → String → Except ConvErr PyVal)
    (flds : List (String × Ty)) (kvs : List (String × PyVal)) (path : String)
    (fname : String) (hmem : fname ∈ flds.map Prod.fst)
    (hmiss : assocFind kvs fname = Option.none) :
    ∀ fvs, convFieldsS conv flds kvs path ≠ .ok fvs := by
  revert hmem
  induction flds with
  | nil => intro hmem; cases hmem
  | cons fld rest ih =>
    intro hmem fvs hfvs
    obtain ⟨g, gt⟩ := fld
    by_cases hg : g = fname
    · subst hg
      rw [convFieldsS, hmiss] at hfvs
      cases hfvs
    · have hmem' : fname ∈ rest.map Prod.fst := by
        rcases List.mem_cons.mp hmem with h | h
        · exact absurd h.symm hg
        · exact h
      rw [convFieldsS] at hfvs
      cases hfind : assocFind kvs g with
      | none => simp only [hfind] at hfvs; cases hfvs
      | some fv =>
        simp only [hfind] at hfvs
        cases hconv : conv gt fv (path ++ "." ++ g) with
        | error e => simp only [hconv, except_bind_err] at hfvs; cases hfvs
        | ok cv =>
          simp only [hconv, except_bind_ok] at hfvs
          cases hrec : convFieldsS conv rest kvs path with
          | error e => simp only [hrec, except_bind_err] at hfvs; cases hfvs
          | ok out => exact absurd hrec (ih hmem' out)

/-- C1: materializing a record — for every record schema and wire object:
in lenient mode a declared field missing from the input whose schema is
`Optional` materializes to `None` (as does any missing declared field); in
strict mode a missing declared field makes the materialization fail
(`MissingFieldError`, carried as a `ValueConversionError`); and input keys
matching no declared field are ignored in both modes — dropping them from
the input leaves the result unchanged. -/
theorem C1_record_field_materialization (fuel : Nat) (env : Env) (cls : String)
    (flds : List (String × Ty)) (kvs : List (String × PyVal)) (fname : String)
    (t : Ty) (path : String) (henv : assocFind env cls = some flds) :
    ((fname, Ty.opt t) ∈ flds → assocFind kvs fname = Option.none →
      ∀ r, convert (fuel+1) env (.record cls) (.dict kvs) path false = .ok r →
        ∃ fvs, r = .dcInst cls fvs ∧ assocFind fvs fname = some PyVal.none)
    ∧ (∀ t2, (fname, t2) ∈ flds → assocFind kvs fname = Option.none →
      ∀ r, convert (fuel+1) env (.record cls) (.dict kvs) path true ≠ .ok r)
    ∧ (∀ strict, convert (fuel+1) env (.record cls)
          (.dict (kvs.filter (fun kv => decide (kv.1 ∈ flds.map Prod.fst)))) path strict
        = convert (fuel+1) env (.record cls) (.dict kvs) path strict) := by
  refine ⟨?_, ?_, ?_⟩
  · intro hmem hmiss r hr
    simp only [convert, henv, Bool.false_eq_true, if_false, ite_false] at hr
    cases hL : convFieldsL (fun ty v2 p => convert fuel env ty v2 p false) flds kvs path with
    | error e => simp only [hL, except_bind_err] at hr; cases hr
    | ok fvs =>
      simp only [hL, except_bind_ok] at hr
      cases hr
      exact ⟨fvs, rfl,
        convFieldsL_missing _ flds kvs path fname
          (List.mem_map_of_mem Prod.fst hmem) hmiss fvs hL⟩
  · intro t2 hmem hmiss r hr
    simp only [convert, henv, if_true] at hr
    cases hS : convFieldsS (fun ty v2 p => convert fuel env ty v2 p true) flds kvs path with
    | error e => simp only [hS, except_bind_err] at hr; cases hr
    | ok fvs =>
      exact absurd hS
        (convFieldsS_missing _ flds kvs path fname
          (List.mem_map_of_mem Prod.fst hmem) hmiss fvs)
  · intro strict
    cases strict with
    | true =>
      simp only [convert, henv, if_true]
      rw [convFieldsS_filter _ flds kvs path (flds.map Prod.fst) (fun fn hfn => hfn)]
    | false =>
      simp only [convert, henv, Bool.false_eq_true, if_false, ite_false]
      rw [convFieldsL_filter _ flds kvs path (flds.map Prod.fst) (fun fn hfn => hfn)]

/-- Environment with a single record `U` having one `Optional[int]` field
(for the C1 witness). -/
theorem C1_witness :
    (∃ fvs, PyVal.dcInst "U" [("o", PyVal.none)] = .dcInst "U" fvs
        ∧ assocFind fvs "o" = some PyVal.none)
    ∧ (∀ r, convert 3 [("U", [("o", Ty.opt (Ty.basic "int"))])] (.record "U")
        (.dict [("bogus", .int 1)]) "root" true ≠ .ok r)
    ∧ convert 3 [("U", [("o", Ty.opt (Ty.basic "int"))])] (.record "U")
        (.dict (([("bogus", PyVal.int 1)]).filter
          (fun kv => decide (kv.1 ∈ ([("o", Ty.opt (Ty.basic "int"))]).map Prod.fst))))
        "root" false
      = convert 3 [("U", [("o", Ty.opt (Ty.basic "int"))])] (.record "U")
        (.dict [("bogus", PyVal.int 1)]) "root" false := by
  have h := C1_record_field_materialization 2 [("U", [("o", Ty.opt (Ty.basic "int"))])]
    "U" [("o", Ty.opt (Ty.basic "int"))] [("bogus", PyVal.int 1)] "o"
    (Ty.basic "int") "root" rfl
  refine ⟨h.1 (by simp) rfl (.dcInst "U" [("o", PyVal.none)]) rfl, ?_, h.2.2 false⟩
  exact h.2.1 (Ty.opt (Ty.basic "int")) (by simp) rfl

/-! ## Claim C8 (amended theorem) -/

/-- A successful first-match lookup pins a member of the list. -/
theorem assocFind_mem {α : Type} (l : List (String × α)) (k : String) (v : α)
    (h : assocFind l k = some v) : (k, v) ∈ l := by
  induction l with
  | nil => cases h
  | cons kv rest ih =>
    obtain ⟨k2, v2⟩ := kv
    rw [assocFind] at h
    by_cases hk : k2 = k
    · subst hk
      rw [if_pos rfl] at h
      cases h
      exact List.mem_cons_self _ _
    · rw [if_neg hk] at h
      exact List.mem_cons_of_mem _ (ih h)

/-- A successful first-match lookup pins a key of the list. -/
theorem assocFind_mem_keys {α : Type} (l : List (String × α)) (k : String)
    (v : α) (h : assocFind l k = some v) : k ∈ l.map Prod.fst :=
  List.mem_map_of_mem Prod.fst (assocFind_mem l k v h)

/-- Extending an exclusion list by a present, not-yet-excluded element
strictly shrinks the filtered list. -/
theorem filter_notin_cons_lt (L chain : List String) (id : String)
    (hid : id ∈ L) (hch : id ∉ chain) :
    (L.filter (fun c => decide (c ∉ id :: chain))).length
      < (L.filter (fun c => decide (c ∉ chain))).length := by
  have hmono : ∀ c, (fun c => decide (c ∉ id :: chain)) c = true →
      (fun c => decide (c ∉ chain)) c = true := by
    intro c hc
    simp only [decide_eq_true_eq] at hc ⊢
    intro hcc
    exact hc (List.mem_cons_of_mem _ hcc)
  have hsub := List.monotone_filter_right L hmono
  have hle := hsub.length_le
  rcases Nat.lt_or_ge (List.filter (fun c => decide (c ∉ id :: chain)) L).length
      (List.filter (fun c => decide (c ∉ chain)) L).length with h | h
  · exact h
  · exfalso
    have heq : List.filter (fun c => decide (c ∉ id :: chain)) L
        = List.filter (fun c => decide (c ∉ chain)) L :=
      hsub.eq_of_length (Nat.le_antisymm hle h)
    have hidin : id ∈ List.filter (fun c => decide (c ∉ chain)) L := by
      rw [List.mem_filter]
      exact ⟨hid, by simp [hch]⟩
    rw [← heq, List.mem_filter] at hidin
    have := hidin.2
    simp at this

/-- Entering a dataclass strictly decreases the new-classes measure. -/
theorem newClasses_lt (env : REnv) (chain : List String) (id : String)
    (hid : id ∈ env.map Prod.fst) (hch : id ∉ chain) :
    newClasses env (id :: chain) < newClasses env chain :=
  filter_notin_cons_lt (env.map Prod.fst) chain id hid hch

/-- A fuel-indexed computation that is constant from fuel 1 on stabilizes. -/
theorem stab_const {α : Type} (g : Nat → RRes α) (c : RRes α)
    (hg : ∀ m, g (m + 1) = c) (hc : c ≠ .out) : Stab g := by
  refine ⟨1, ?_⟩
  intro m hm
  obtain ⟨m', rfl⟩ : ∃ m'', m = m'' + 1 := ⟨m - 1, by omega⟩
  rw [hg, hg 0]
  exact ⟨rfl, hc⟩

/-- Stability lifts through one recursive call. -/
theorem stab_step1 {α β : Type} (f : Nat → RRes α) (g : Nat → RRes β)
    (F : RRes α → RRes β)
    (hgf : ∀ m, g (m + 1) = F (f m)) (hf : Stab f)
    (hF : ∀ x, x ≠ RRes.out → F x ≠ RRes.out) : Stab g := by
  obtain ⟨n, hn⟩ := hf
  refine ⟨n + 1, ?_⟩
  intro m hm
  obtain ⟨m', rfl⟩ : ∃ m'', m = m'' + 1 := ⟨m - 1, by omega⟩
  have h1 : f m' = f n := (hn m' (by omega)).1
  rw [hgf, hgf, h1]
  exact ⟨rfl, hF _ (hn n le_rfl).2⟩

/-- Stability lifts through two recursive calls. -/
theorem stab_step2 {α β γ : Type} (f1 : Nat → RRes α) (f2 : Nat → RRes β)
    (g : Nat → RRes γ) (F : RRes α → RRes β → RRes γ)
    (hgf : ∀ m, g (m + 1) = F (f1 m) (f2 m))
    (hf1 : Stab f1) (hf2 : Stab f2)
    (hF : ∀ x y, x ≠ RRes.out → y ≠ RRes.out → F x y ≠ RRes.out) : Stab g := by
  obtain ⟨n1, hn1⟩ := hf1
  obtain ⟨n2, hn2⟩ := hf2
  refine ⟨max n1 n2 + 1, ?_⟩
  intro m hm
  obtain ⟨m', rfl⟩ : ∃ m'', m = m'' + 1 := ⟨m - 1, by omega⟩
  have e1 : f1 m' = f1 n1 := (hn1 m' (by omega)).1
  have e2 : f2 m' = f2 n2 := (hn2 m' (by omega)).1
  have e1b : f1 (max n1 n2) = f1 n1 := (hn1 _ (by omega)).1
  have e2b : f2 (max n1 n2) = f2 n2 := (hn2 _ (by omega)).1
  rw [hgf, hgf, e1, e2, e1b, e2b]
  exact ⟨rfl, hF _ _ (hn1 n1 le_rfl).2 (hn2 n2 le_rfl).2⟩

/-- Stability of the fuel-bounded resolver, by well-founded induction on the
lexicographic measure (classes not yet in progress, annotation size): every
resolver call reaches a stable, non-`out` result at some finite fuel — the
embedded Python recursion terminates.  `W` majorizes the size of every field
list in the environment. -/
theorem resolver_stab (env : REnv) (W : Nat)
    (hW : ∀ cf ∈ env, sizeOf cf.2 < W) (B : Nat) :
    ∀ chain : List String,
      (∀ a : Ann, newClasses env chain * W + sizeOf a ≤ B →
        Stab (fun m => resolveAnnF m env chain a))
      ∧ (∀ flds : List (String × Ann), newClasses env chain * W + sizeOf flds ≤ B →
        Stab (fun m => resolveFieldsF m env chain flds))
      ∧ (∀ args : List Ann, newClasses env chain * W + sizeOf args ≤ B →
        Stab (fun m => resolveArgsF m env chain args)) := by
  induction B using Nat.strong_induction_on with
  | _ B ih =>
    intro chain
    refine ⟨?_, ?_, ?_⟩
    · intro a hB
      cases a with
      | name id =>
        by_cases hbasic : id = "str" ∨ id = "int" ∨ id = "float" ∨ id = "bool"
        · exact stab_const _ (.ok (.basic id) [])
            (fun m => by simp only [resolveAnnF]; rw [if_pos hbasic])
            (fun h => RRes.noConfusion h)
        · by_cases hAny : id = "Any"
          · exact stab_const _ (.ok .anyT [])
              (fun m => by simp only [resolveAnnF]; rw [if_neg hbasic, if_pos hAny])
              (fun h => RRes.noConfusion h)
          · cases henv : assocFind env id with
            | none =>
              exact stab_const _ .fail
                (fun m => by
                  simp only [resolveAnnF, henv]
                  rw [if_neg hbasic, if_neg hAny])
                (fun h => RRes.noConfusion h)
            | some flds =>
              by_cases hch : id ∈ chain
              · exact stab_const _ (.ok (.dcRef id) [])
                  (fun m => by
                    simp only [resolveAnnF, henv]
                    rw [if_neg hbasic, if_neg hAny, if_pos hch])
                  (fun h => RRes.noConfusion h)
              · have hidkeys : id ∈ env.map Prod.fst :=
                  assocFind_mem_keys env id flds henv
                have hsize : sizeOf flds < W := by
                  have := hW (id, flds) (assocFind_mem env id flds henv)
                  simpa using this
                have hklt : newClasses env (id :: chain) < newClasses env chain :=
                  newClasses_lt env chain id hidkeys hch
                have hmul : (newClasses env (id :: chain) + 1) * W
                    ≤ newClasses env chain * W :=
                  Nat.mul_le_mul_right W (Nat.succ_le_of_lt hklt)
                have hB2 : newClasses env (id :: chain) * W + sizeOf flds < B := by
                  have h1 : newClasses env (id :: chain) * W + W
                      ≤ newClasses env chain * W := by
                    have h2 : (newClasses env (id :: chain) + 1) * W
                        = newClasses env (id :: chain) * W + W := by
                      rw [Nat.add_mul, Nat.one_mul]
                    rw [← h2]
                    exact hmul
                  omega
                have hstabF := (ih _ hB2 (id :: chain)).2.1 flds le_rfl
                exact stab_step1 _ _
                  (fun x => match x with
                    | .out => .out
                    | .fail => .fail
                    | .ok fts created => .ok (.dc id fts) (id :: created))
                  (fun m => by
                    simp only [resolveAnnF, henv]
                    rw [if_neg hbasic, if_neg hAny, if_neg hch])
                  hstabF
                  (by
                    intro x hx
                    cases x with
                    | out => exact absurd rfl hx
                    | fail => exact fun h => RRes.noConfusion h
                    | ok t c => exact fun h => RRes.noConfusion h)
      | subscript base args =>
        by_cases hL : base = "List" ∨ base = "list"
        · rcases args with _ | ⟨a1, _ | ⟨a2, rest⟩⟩
          · exact stab_const _ .fail
              (fun m => by simp only [resolveAnnF]; rw [if_pos hL])
              (fun h => RRes.noConfusion h)
          · have hB1 : newClasses env chain * W + sizeOf a1 < B := by
              have h1 : sizeOf a1 < sizeOf (Ann.subscript base [a1]) := by
                simp <;> omega
              omega
            have hstab1 := (ih _ hB1 chain).1 a1 le_rfl
            exact stab_step1 _ _
              (fun x => match x with
                | .out => .out
                | .fail => .fail
                | .ok t created => .ok (.listT t) created)
              (fun m => by simp only [resolveAnnF]; rw [if_pos hL])
              hstab1
              (by
                intro x hx
                cases x with
                | out => exact absurd rfl hx
                | fail => exact fun h => RRes.noConfusion h
                | ok t c => exact fun h => RRes.noConfusion h)
          · exact stab_const _ .fail
              (fun m => by simp only [resolveAnnF]; rw [if_pos hL])
              (fun h => RRes.noConfusion h)
        · by_cases hO : base = "Optional" ∨ base = "optional"
          · rcases args with _ | ⟨a1, _ | ⟨a2, rest⟩⟩
            · exact stab_const _ .fail
                (fun m => by simp only [resolveAnnF]; rw [if_neg hL, if_pos hO])
                (fun h => RRes.noConfusion h)
            · have hB1 : newClasses env chain * W + sizeOf a1 < B := by
                have h1 : sizeOf a1 < sizeOf (Ann.subscript base [a1]) := by
                  simp <;> omega
                omega
              have hstab1 := (ih _ hB1 chain).1 a1 le_rfl
              exact stab_step1 _ _
                (fun x => match x with
                  | .out => .out
                  | .fail => .fail
                  | .ok t created => .ok (.optT t) created)
                (fun m => by simp only [resolveAnnF]; rw [if_neg hL, if_pos hO])
                hstab1
                (by
                  intro x hx
                  cases x with
                  | out => exact absurd rfl hx
                  | fail => exact fun h => RRes.noConfusion h
                  | ok t c => exact fun h => RRes.noConfusion h)
            · exact stab_const _ .fail
                (fun m => by simp only [resolveAnnF]; rw [if_neg hL, if_pos hO])
                (fun h => RRes.noConfusion h)
          · by_cases hT : base = "Tuple" ∨ base = "tuple"
            · have hBargs : newClasses env chain * W + sizeOf args < B := by
                have h1 : sizeOf args < sizeOf (Ann.subscript base args) := by
                  simp <;> omega
                omega
              have hstabg := (ih _ hBargs chain).2.2 args le_rfl
              exact stab_step1 _ _
                (fun x => match x with
                  | .out => .out
                  | .fail => .fail
                  | .ok ts created => .ok (.tupleT ts) created)
                (fun m => by
                  simp only [resolveAnnF]
                  rw [if_neg hL, if_neg hO, if_pos hT])
                hstabg
                (by
                  intro x hx
                  cases x with
                  | out => exact absurd rfl hx
                  | fail => exact fun h => RRes.noConfusion h
                  | ok t c => exact fun h => RRes.noConfusion h)
            · by_cases hU : base = "Union" ∨ base = "union"
              · have hBargs : newClasses env chain * W + sizeOf args < B := by
                  have h1 : sizeOf args < sizeOf (Ann.subscript base args) := by
                    simp <;> omega
                  omega
                have hstabg := (ih _ hBargs chain).2.2 args le_rfl
                exact stab_step1 _ _
                  (fun x => match x with
                    | .out => .out
                    | .fail => .fail
                    | .ok ts created => .ok (.unionT ts) created)
                  (fun m => by
                    simp only [resolveAnnF]
                    rw [if_neg hL, if_neg hO, if_neg hT, if_pos hU])
                  hstabg
                  (by
                    intro x hx
                    cases x with
                    | out => exact absurd rfl hx
                    | fail => exact fun h => RRes.noConfusion h
                    | ok t c => exact fun h => RRes.noConfusion h)
              · by_cases hD : base = "Dict" ∨ base = "dict"
                · rcases args with _ | ⟨k1, _ | ⟨v1, _ | ⟨a3, rest⟩⟩⟩
                  · exact stab_const _ .fail
                      (fun m => by
                        simp only [resolveAnnF]
                        rw [if_neg hL, if_neg hO, if_neg hT, if_neg hU, if_pos hD])
                      (fun h => RRes.noConfusion h)
                  · exact stab_const _ .fail
                      (fun m => by
                        simp only [resolveAnnF]
                        rw [if_neg hL, if_neg hO, if_neg hT, if_neg hU, if_pos hD])
                      (fun h => RRes.noConfusion h)
                  · have hB1 : newClasses env chain * W + sizeOf k1 < B := by
                      have h1 : sizeOf k1 < sizeOf (Ann.subscript base [k1, v1]) := by
                        simp <;> omega
                      omega
                    have hB2 : newClasses env chain * W + sizeOf v1 < B := by
                      have h1 : sizeOf v1 < sizeOf (Ann.subscript base [k1, v1]) := by
                        simp <;> omega
                      omega
                    have hs1 := (ih _ hB1 chain).1 k1 le_rfl
                    have hs2 := (ih _ hB2 chain).1 v1 le_rfl
                    exact stab_step2 _ _ _
                      (fun x y => match x with
                        | .out => .out
                        | .fail => .fail
                        | .ok kTy createdK => match y with
                          | .out => .out
                          | .fail => .fail
                          | .ok vTy createdV =>
                            match kTy with
                            | .basic s =>
                              if s = "str" then
                                .ok (.dictT (.basic s) vTy) (createdK ++ createdV)
                              else .fail
                            | _ => .fail)
                      (fun m => by
                        simp only [resolveAnnF]
                        rw [if_neg hL, if_neg hO, if_neg hT, if_neg hU, if_pos hD])
                      hs1 hs2
                      (by
                        intro x y hx hy
                        cases x with
                        | out => exact absurd rfl hx
                        | fail => exact fun h => RRes.noConfusion h
                        | ok kTy ck =>
                          cases y with
                          | out => exact absurd rfl hy
                          | fail => exact fun h => RRes.noConfusion h
                          | ok vTy cv =>
                            cases kTy with
                            | basic s =>
                              dsimp only
                              by_cases hs : s = "str"
                              · rw [if_pos hs]
                                exact fun h => RRes.noConfusion h
                              · rw [if_neg hs]
                                exact fun h => RRes.noConfusion h
                            | anyT => exact fun h => RRes.noConfusion h
                            | listT t => exact fun h => RRes.noConfusion h
                            | tupleT ts => exact fun h => RRes.noConfusion h
                            | dictT k v => exact fun h => RRes.noConfusion h
                            | unionT ts => exact fun h => RRes.noConfusion h
                            | optT t => exact fun h => RRes.noConfusion h
                            | dc c f => exact fun h => RRes.noConfusion h
                            | dcRef c => exact fun h => RRes.noConfusion h)
                  · exact stab_const _ .fail
                      (fun m => by
                        simp only [resolveAnnF]
                        rw [if_neg hL, if_neg hO, if_neg hT, if_neg hU, if_pos hD])
                      (fun h => RRes.noConfusion h)
                · exact stab_const _ .fail
                    (fun m => by
                      simp only [resolveAnnF]
                      rw [if_neg hL, if_neg hO, if_neg hT, if_neg hU, if_neg hD])
                    (fun h => RRes.noConfusion h)
    · intro flds hB
      cases flds with
      | nil =>
        exact stab_const _ (.ok [] [])
          (fun m => by simp only [resolveFieldsF]) (fun h => RRes.noConfusion h)
      | cons fld rest =>
        obtain ⟨fname, fa⟩ := fld
        have hB1 : newClasses env chain * W + sizeOf fa < B := by
          have h1 : sizeOf fa < sizeOf ((fname, fa) :: rest) := by
            simp <;> omega
          omega
        have hB2 : newClasses env chain * W + sizeOf rest < B := by
          have h1 : sizeOf rest < sizeOf ((fname, fa) :: rest) := by
            simp <;> omega
          omega
        have hs1 := (ih _ hB1 chain).1 fa le_rfl
        have hs2 := (ih _ hB2 chain).2.1 rest le_rfl
        exact stab_step2 _ _ _
          (fun x y => match x with
            | .out => .out
            | .fail => .fail
            | .ok t created => match y with
              | .out => .out
              | .fail => .fail
              | .ok ts created2 => .ok ((fname, t) :: ts) (created ++ created2))
          (fun m => by simp only [resolveFieldsF])
          hs1 hs2
          (by
            intro x y hx hy
            cases x with
            | out => exact absurd rfl hx
            | fail => exact fun h => RRes.noConfusion h
            | ok t c =>
              cases y with
              | out => exact absurd rfl hy
              | fail => exact fun h => RRes.noConfusion h
              | ok ts c2 => exact fun h => RRes.noConfusion h)
    · intro args hB
      cases args with
      | nil =>
        exact stab_const _ (.ok [] [])
          (fun m => by simp only [resolveArgsF]) (fun h => RRes.noConfusion h)
      | cons a1 rest =>
        have hB1 : newClasses env chain * W + sizeOf a1 < B := by
          have h1 : sizeOf a1 < sizeOf (a1 :: rest) := by
            simp <;> omega
          omega
        have hB2 : newClasses env chain * W + sizeOf rest < B := by
          have h1 : sizeOf rest < sizeOf (a1 :: rest) := by
            simp <;> omega
          omega
        have hs1 := (ih _ hB1 chain).1 a1 le_rfl
        have hs2 := (ih _ hB2 chain).2.2 rest le_rfl
        exact stab_step2 _ _ _
          (fun x y => match x with
            | .out => .out
            | .fail => .fail
            | .ok t created => match y with
              | .out => .out
              | .fail => .fail
              | .ok ts created2 => .ok (t :: ts) (created ++ created2))
          (fun m => by simp only [resolveArgsF])
          hs1 hs2
          (by
            intro x y hx hy
            cases x with
            | out => exact absurd rfl hx
            | fail => exact fun h => RRes.noConfusion h
            | ok t c =>
              cases y with
              | out => exact absurd rfl hy
              | fail => exact fun h => RRes.noConfusion h
              | ok ts c2 => exact fun h => RRes.noConfusion h)

/-- C8 amended: resolving a record schema whose fields refer back to the
record (directly or through `Optional`/`List`/`Union` wrappers) terminates:
every resolver call stabilizes at a finite recursion depth; before recursing
into a dataclass, the resolver checks the chain of in-progress enclosing
`DataclassType` nodes and, on a match, returns a reference to the
in-progress placeholder, creating no node — so a purely self-referencing
record such as the `Tree`-shaped `T` yields exactly one created node.  (A
declaration reached from two *sibling* fields is, however, resolved once per
occurrence — see the counterexample — so "exactly one node per distinct
record declaration in scope" holds along each resolution chain, not
globally.) -/
theorem C8_resolver_terminates_and_placeholder :
    (∀ (env : REnv) (chain : List String) (a : Ann),
      Stab (fun m => resolveAnnF m env chain a))
    ∧ (∀ (fuel : Nat) (env : REnv) (chain : List String) (id : String)
        (flds : List (String × Ann)),
        ¬(id = "str" ∨ id = "int" ∨ id = "float" ∨ id = "bool") → id ≠ "Any" →
        assocFind env id = some flds → id ∈ chain →
        resolveAnnF (fuel+1) env chain (.name id) = .ok (.dcRef id) [])
    ∧ resolveAnnF 9 envT [] (.name "T")
        = .ok (.dc "T" [("value", .basic "int"),
                        ("left", .optT (.dcRef "T")),
                        ("right", .optT (.dcRef "T"))]) ["T"] := by
  refine ⟨?_, ?_, rfl⟩
  · intro env chain a
    have hW : ∀ cf ∈ env, sizeOf cf.2 < sizeOf env := by
      intro cf hcf
      have h1 := List.sizeOf_lt_of_mem hcf
      have h2 : sizeOf cf.2 < sizeOf cf := by
        obtain ⟨x, y⟩ := cf
        simp <;> omega
      omega
    exact (resolver_stab env (sizeOf env) hW
      (newClasses env chain * sizeOf env + sizeOf a) chain).1 a le_rfl
  · intro fuel env chain id flds hbasic hAny henv hch
    simp only [resolveAnnF, henv]
    rw [if_neg hbasic, if_neg hAny, if_pos hch]

/-- Witness for C8: with record `T` already on the in-progress chain, a
field annotation referring to `T` resolves to the in-progress placeholder
and creates no node. -/
theorem C8_witness :
    ¬("T" = "str" ∨ "T" = "int" ∨ "T" = "float" ∨ "T" = "bool")
    ∧ "T" ≠ "Any"
    ∧ assocFind envT "T" = some [("value", Ann.name "int"),
        ("left", Ann.subscript "Optional" [Ann.name "T"]),
        ("right", Ann.subscript "Optional" [Ann.name "T"])]
    ∧ "T" ∈ ["T"]
    ∧ resolveAnnF 5 envT ["T"] (.name "T") = .ok (.dcRef "T") [] :=
  ⟨by decide, by decide, rfl, by decide,
   C8_resolver_terminates_and_placeholder.2.1 4 envT ["T"] "T"
     [("value", Ann.name "int"),
      ("left", Ann.subscript "Optional" [Ann.name "T"]),
      ("right", Ann.subscript "Optional" [Ann.name "T"])]
     (by decide) (by decide) rfl (by decide)⟩
